import Mathlib

/-!
# C0VM: a shallow embedding of `execute` (src/c0vm/c0vm.c)

The interpreter loop of `c0vm.c` is embedded as a step function on an explicit
machine state.  One call of `step` is one iteration of `while (true) { switch (P[pc]) ... }`.

Conventions of the embedding

* `int32_t` values are `Int`s in `[-2^31, 2^31)`; `uint32_t` values are `Nat`s below `2^32`;
  every conversion of the source is written out (`toU32`, `toI32`, `% 2^32`).
* `pc` is a `size_t`: every `pc++` and `pc += e` is taken modulo `2^64`.
* Bytes are `Nat`s; every byte read from a code array is reduced modulo 256.
* The C heap is a flat list of bytes `M`; address `a > 0` is the byte `M[a-1]`, address `0`
  is `NULL`.  Pointers are stored little-endian in 8 bytes, `int32_t` in 4 bytes.
* The operand stack `S` is a list whose head is the top of the stack.  The locals `V`
  are a list.  Neither lives in `M` (bytecode cannot take their address).
* Whatever the C source leaves undefined (popping an empty stack, reading a value with the
  wrong tag, indexing outside an array, dereferencing outside the heap, a failed
  `ASSERT`/`REQUIRES` contract) is the outcome `Halt.undefined_behaviour`.
* Where C leaves the evaluation order of two operands unspecified
  (`val2int(c0v_pop(S)) <= val2int(c0v_pop(S))`), the left operand is evaluated first.
* Signed `<<` and `>>` follow the two's complement rules of gcc and clang
  (`>>` on a negative value is an arithmetic shift, `<<` wraps); `char` is signed;
  a conversion to a narrower signed type wraps.
* Pointer arithmetic (`result + size`, `&elems[i]`) is addition of addresses.
-/

namespace C0VM

/-! ## Machine integers -/

/-- Least value of `int32_t`, the macro `INT_MIN` of `limits.h`. -/
def INT_MIN : Int := -2147483648

/-- Greatest value of `int32_t`, the macro `INT_MAX` of `limits.h`. -/
def INT_MAX : Int := 2147483647

/-- Range of `int32_t`. -/
def isInt32 (x : Int) : Prop := -2147483648 ≤ x ∧ x ≤ 2147483647

instance (x : Int) : Decidable (isInt32 x) := by unfold isInt32; infer_instance

/-- Conversion `(uint32_t)x` of a signed value. -/
def toU32 (x : Int) : Nat := (x % 4294967296).toNat

/-- Conversion `(int32_t)u` of an unsigned value (two's complement reinterpretation). -/
def toI32 (u : Nat) : Int :=
  if u % 4294967296 < 2147483648 then ((u % 4294967296 : Nat) : Int)
  else ((u % 4294967296 : Nat) : Int) - 4294967296

/-- Conversion `(int16_t)x` of a non-negative `int`. -/
def toI16 (u : Nat) : Int :=
  if u % 65536 < 32768 then ((u % 65536 : Nat) : Int)
  else ((u % 65536 : Nat) : Int) - 65536

/-- Conversion `(int8_t)b` of a byte, as in `(int32_t)(int8_t)(P[pc])`. -/
def toI8 (b : Nat) : Int :=
  if b % 256 < 128 then ((b % 256 : Nat) : Int) else ((b % 256 : Nat) : Int) - 256

/-- Modulus of `size_t` arithmetic. -/
def SIZE_MOD : Nat := 18446744073709551616

/-- The statement `pc++` on a `size_t`. -/
def pcInc (pc : Nat) : Nat := (pc + 1) % SIZE_MOD

/-- The statement `pc += e` for a `size_t pc` and an `int e`: `e` is converted to `size_t`. -/
def pcAdd (pc : Nat) (e : Int) : Nat := (((pc : Int) + e) % (SIZE_MOD : Int)).toNat

/-- Bitwise `x | y` on two `int`s, through their two's complement bit patterns. -/
def c_or (x y : Int) : Int := toI32 (toU32 x ||| toU32 y)

/-- Bitwise `x & y` on two `int`s. -/
def c_and (x y : Int) : Int := toI32 (toU32 x &&& toU32 y)

/-- Bitwise `x ^ y` on two `int`s. -/
def c_xor (x y : Int) : Int := toI32 (toU32 x ^^^ toU32 y)

/-- Shift `b << a` on `int32_t b` for `0 ≤ a < 32`. -/
def c_shl (b a : Int) : Int := toI32 ((toU32 b <<< a.toNat) % 4294967296)

/-- Shift `b >> a` on `int32_t b` for `0 ≤ a < 32` (arithmetic shift). -/
def c_shr (b a : Int) : Int := b >>> a.toNat

/-! ## Outcomes -/

/-- Ways in which `execute` stops.  `returned` is the `return retval` of the outermost
`RETURN`; the four `c0_*` errors are the calls into `lib/c0vm_abort.h`, which do not
return; `invalid_opcode` is the `abort()` of the `default` case. -/
inductive Halt
  | returned (retval : Int)
  | arith_error (msg : String)
  | memory_error (msg : String)
  | assertion_failure (msg : Nat)
  | user_error (msg : Nat)
  | invalid_opcode (op : Nat)
  | undefined_behaviour
  deriving DecidableEq, Repr

/-! ## Values (lib/c0vm.h) -/

/-- Modelled from the spec: the tagged value `c0_value` of `lib/c0vm.h` (not under src/),
a two-variant union of a 32-bit integer and a pointer, carrying its tag. -/
inductive c0_value
  | int (i : Int)
  | ptr (p : Nat)
  deriving DecidableEq, Repr

/-- Modelled from the spec: `int2val` of `lib/c0vm.h`, `make_int`. -/
def int2val (i : Int) : c0_value := c0_value.int i

/-- Modelled from the spec: `ptr2val` of `lib/c0vm.h`, `make_ptr`. -/
def ptr2val (p : Nat) : c0_value := c0_value.ptr p

/-- Modelled from the spec: `val2int` of `lib/c0vm.h`, `as_int`; asking an integer of a
pointer value is a contract violation. -/
def val2int : c0_value → Except Halt Int
  | c0_value.int i => .ok i
  | c0_value.ptr _ => .error .undefined_behaviour

/-- Modelled from the spec: `val2ptr` of `lib/c0vm.h`, `as_ptr`; asking a pointer of an
integer value is a contract violation. -/
def val2ptr : c0_value → Except Halt Nat
  | c0_value.ptr p => .ok p
  | c0_value.int _ => .error .undefined_behaviour

/-- Modelled from the spec: `val_equal` of `lib/c0vm.h`, `values_equal`: two pointers are
equal iff they are the same address, two ints iff they are the same int; values of
different variants are not equal. -/
def val_equal : c0_value → c0_value → Bool
  | c0_value.int i, c0_value.int j => decide (i = j)
  | c0_value.ptr p, c0_value.ptr q => decide (p = q)
  | _, _ => false

/-- Modelled from the spec: `c0v_pop` of `lib/c0v_stack.h`; popping an empty stack is a
contract violation. -/
def c0v_pop : List c0_value → Except Halt (c0_value × List c0_value)
  | [] => .error .undefined_behaviour
  | v :: S => .ok (v, S)

/-- Modelled from the spec: `c0v_push` of `lib/c0v_stack.h`. -/
def c0v_push (S : List c0_value) (v : c0_value) : List c0_value := v :: S

/-! ## The heap -/

/-- Value of a little-endian byte sequence. -/
def leValue : List Nat → Nat
  | [] => 0
  | b :: bs => b % 256 + 256 * leValue bs

/-- The `n` little-endian bytes of `x`. -/
def leBytes : Nat → Nat → List Nat
  | 0, _ => []
  | n + 1, x => x % 256 :: leBytes n (x / 256)

/-- Read of `n` bytes at address `addr`; outside the heap the read is undefined. -/
def loadBytes (M : List Nat) (addr n : Nat) : Except Halt (List Nat) :=
  if addr = 0 ∨ M.length < addr - 1 + n then .error .undefined_behaviour
  else .ok ((M.drop (addr - 1)).take n)

/-- Write of the bytes `bs` at address `addr`; outside the heap the write is undefined. -/
def storeBytes (M : List Nat) (addr : Nat) (bs : List Nat) : Except Halt (List Nat) :=
  if addr = 0 ∨ M.length < addr - 1 + bs.length then .error .undefined_behaviour
  else .ok (M.take (addr - 1) ++ bs ++ M.drop (addr - 1 + bs.length))

/-- Modelled from the spec: `xcalloc` of `lib/xalloc.h`: a fresh zero-filled block that is
never `NULL`; a block of zero bytes still has an address of its own. -/
def xcalloc (M : List Nat) (nbytes : Nat) : Nat × List Nat :=
  (M.length + 1, M ++ List.replicate (max nbytes 1) 0)

/-! ## Programs (lib/c0vm.h) -/

/-- Modelled from the spec: `struct function_info` of `lib/c0vm.h`. -/
structure function_info where
  num_args : Nat
  num_vars : Nat
  code : List Nat
  deriving DecidableEq, Repr

/-- Modelled from the spec: `struct native_info` of `lib/c0vm.h`. -/
structure native_info where
  num_args : Nat
  function_table_index : Nat
  deriving DecidableEq, Repr

/-- Modelled from the spec: `struct bc0_file` of `lib/c0vm.h`.  The string pool is loaded
at address 1 of the heap, so `&string_pool[i]` is the address `1 + i`. -/
structure bc0_file where
  int_pool : List Int
  string_pool : List Nat
  function_pool : List function_info
  native_pool : List native_info
  deriving DecidableEq, Repr

/-- Modelled from the spec: the type of `native_function_table` of `lib/c0vm_c0ffi.h`: the
function at an index takes the argument array and returns one value; it may use the heap
and may abort. -/
abbrev NativeTable := Nat → List c0_value → List Nat → Except Halt (c0_value × List Nat)

/-! ## Machine state -/

/-- A suspended caller, `struct frame_info`. -/
structure frame where
  S : List c0_value
  P : List Nat
  pc : Nat
  V : List c0_value
  deriving DecidableEq, Repr

/-- The variables of `execute` that live across iterations of its loop, and the heap. -/
structure State where
  S : List c0_value
  P : List Nat
  pc : Nat
  V : List c0_value
  callStack : List frame
  M : List Nat
  deriving DecidableEq, Repr

/-! ## Opcodes (lib/c0vm.h) -/

/-- The instruction names used as `case` labels by the `switch` of `execute`. -/
inductive Opcode
  | POP | DUP | SWAP | RETURN
  | IADD | ISUB | IMUL | IDIV | IREM | IAND | IOR | IXOR | ISHR | ISHL
  | BIPUSH | ILDC | ALDC | ACONST_NULL
  | VLOAD | VSTORE
  | ATHROW | ASSERT
  | NOP | IF_CMPEQ | IF_CMPNE | IF_ICMPLT | IF_ICMPGE | IF_ICMPGT | IF_ICMPLE | GOTO
  | INVOKESTATIC | INVOKENATIVE
  | NEW | IMLOAD | IMSTORE | AMLOAD | AMSTORE | CMLOAD | CMSTORE | AADDF
  | NEWARRAY | ARRAYLENGTH | AADDS
  | CHECKTAG | HASTAG | ADDTAG | ADDROF_STATIC | ADDROF_NATIVE | INVOKEDYNAMIC
  deriving DecidableEq, Repr

/-- Modelled from the spec: the opcode byte values, the `enum instructions` of
`lib/c0vm.h` (not under src/): the canonical opcode set of the C0VM.  A byte that is no
instruction is `none` and reaches the `default` label of the `switch`. -/
def decode (b : Nat) : Option Opcode :=
  if b = 0x00 then some .NOP
  else if b = 0x01 then some .ACONST_NULL
  else if b = 0x10 then some .BIPUSH
  else if b = 0x13 then some .ILDC
  else if b = 0x14 then some .ALDC
  else if b = 0x15 then some .VLOAD
  else if b = 0x16 then some .ADDROF_STATIC
  else if b = 0x17 then some .ADDROF_NATIVE
  else if b = 0x2E then some .IMLOAD
  else if b = 0x2F then some .AMLOAD
  else if b = 0x34 then some .CMLOAD
  else if b = 0x36 then some .VSTORE
  else if b = 0x4E then some .IMSTORE
  else if b = 0x4F then some .AMSTORE
  else if b = 0x55 then some .CMSTORE
  else if b = 0x57 then some .POP
  else if b = 0x59 then some .DUP
  else if b = 0x5F then some .SWAP
  else if b = 0x60 then some .IADD
  else if b = 0x62 then some .AADDF
  else if b = 0x63 then some .AADDS
  else if b = 0x64 then some .ISUB
  else if b = 0x68 then some .IMUL
  else if b = 0x6C then some .IDIV
  else if b = 0x70 then some .IREM
  else if b = 0x78 then some .ISHL
  else if b = 0x7A then some .ISHR
  else if b = 0x7E then some .IAND
  else if b = 0x80 then some .IOR
  else if b = 0x82 then some .IXOR
  else if b = 0x9F then some .IF_CMPEQ
  else if b = 0xA0 then some .IF_CMPNE
  else if b = 0xA1 then some .IF_ICMPLT
  else if b = 0xA2 then some .IF_ICMPGE
  else if b = 0xA3 then some .IF_ICMPGT
  else if b = 0xA4 then some .IF_ICMPLE
  else if b = 0xA7 then some .GOTO
  else if b = 0xB0 then some .RETURN
  else if b = 0xB6 then some .INVOKEDYNAMIC
  else if b = 0xB7 then some .INVOKENATIVE
  else if b = 0xB8 then some .INVOKESTATIC
  else if b = 0xBB then some .NEW
  else if b = 0xBC then some .NEWARRAY
  else if b = 0xBE then some .ARRAYLENGTH
  else if b = 0xBF then some .ATHROW
  else if b = 0xC0 then some .CHECKTAG
  else if b = 0xC1 then some .HASTAG
  else if b = 0xC2 then some .ADDTAG
  else if b = 0xCF then some .ASSERT
  else none

/-- The byte `P[pc]` of a code array; outside the array the read is undefined. -/
def fetch (P : List Nat) (pc : Nat) : Except Halt Nat :=
  match P[pc]? with
  | some b => .ok (b % 256)
  | none => .error .undefined_behaviour

/-- The loop `while (i != 0) { V[i-1] = c0v_pop(S); i -= 1; }` of INVOKESTATIC (and of
INVOKENATIVE, on `tmp`): returns the filled array and what is left of the stack. -/
def popArgs : Nat → List c0_value → List c0_value →
    Except Halt (List c0_value × List c0_value)
  | 0, V, S => .ok (V, S)
  | i + 1, V, S =>
    match c0v_pop S with
    | .error e => .error e
    | .ok (v, S1) =>
      if i < V.length then popArgs i (V.set i v) S1 else .error .undefined_behaviour

/-- Size in bytes of `c0_array` (`uint32_t count; uint32_t elt_size; void *elems;`). -/
def SIZEOF_C0_ARRAY : Nat := 16

/-! ## One iteration of the interpreter loop -/

/-- One iteration of `while (true) { switch (P[pc]) { ... } }` of `execute`: the next
state, or the way in which the loop is left. -/
def step (nft : NativeTable) (bc0 : bc0_file) (s : State) : Except Halt State := do
  let op ← fetch s.P s.pc
  match decode op with
  | some .POP =>
    let pc := pcInc s.pc
    let (_, S) ← c0v_pop s.S
    pure { s with pc := pc, S := S }
  | some .DUP =>
    let pc := pcInc s.pc
    let (v, S) ← c0v_pop s.S
    let S := c0v_push S v
    let S := c0v_push S v
    pure { s with pc := pc, S := S }
  | some .SWAP =>
    let pc := pcInc s.pc
    let (v1, S) ← c0v_pop s.S
    let (v2, S) ← c0v_pop S
    let S := c0v_push S v1
    let S := c0v_push S v2
    pure { s with pc := pc, S := S }
  | some .RETURN =>
    let (v, S) ← c0v_pop s.S
    let retval ← val2int v
    -- ASSERT(c0v_stack_empty(S))
    if S ≠ [] then throw .undefined_behaviour
    match s.callStack with
    | tmp :: callStack =>
      pure { s with pc := tmp.pc, S := c0v_push tmp.S (int2val retval), P := tmp.P,
                    V := tmp.V, callStack := callStack }
    | [] => throw (.returned retval)
  | some .IADD =>
    let pc := pcInc s.pc
    let (va, S) ← c0v_pop s.S
    let a ← val2int va
    let (vb, S) ← c0v_pop S
    let b ← val2int vb
    let res := (toU32 a + toU32 b) % 4294967296
    pure { s with pc := pc, S := c0v_push S (int2val (toI32 res)) }
  | some .ISUB =>
    let pc := pcInc s.pc
    let (va, S) ← c0v_pop s.S
    let a ← val2int va
    let (vb, S) ← c0v_pop S
    let b ← val2int vb
    let res := (4294967296 + toU32 b - toU32 a) % 4294967296
    pure { s with pc := pc, S := c0v_push S (int2val (toI32 res)) }
  | some .IMUL =>
    let pc := pcInc s.pc
    let (va, S) ← c0v_pop s.S
    let a ← val2int va
    let (vb, S) ← c0v_pop S
    let b ← val2int vb
    let res := (toU32 a * toU32 b) % 4294967296
    pure { s with pc := pc, S := c0v_push S (int2val (toI32 res)) }
  | some .IDIV =>
    let pc := pcInc s.pc
    let (va, S) ← c0v_pop s.S
    let a ← val2int va
    let (vb, S) ← c0v_pop S
    let b ← val2int vb
    if a = 0 then throw (.arith_error "undefined dividing by zero")
    if a = -1 ∧ b = INT_MIN then
      throw (.arith_error "undefined dividing by negative 1 and INTMIN")
    pure { s with pc := pc, S := c0v_push S (int2val (Int.tdiv b a)) }
  | some .IREM =>
    let pc := pcInc s.pc
    let (va, S) ← c0v_pop s.S
    let a ← val2int va
    let (vb, S) ← c0v_pop S
    let b ← val2int vb
    if a = 0 then throw (.arith_error "modulo by zero")
    if a = -1 ∧ b = INT_MIN then throw (.arith_error "modulo by negative 1 and INTMIN")
    pure { s with pc := pc, S := c0v_push S (int2val (Int.tmod b a)) }
  | some .IAND =>
    let pc := pcInc s.pc
    let (va, S) ← c0v_pop s.S
    let a ← val2int va
    let (vb, S) ← c0v_pop S
    let b ← val2int vb
    pure { s with pc := pc, S := c0v_push S (int2val (c_and b a)) }
  | some .IOR =>
    let pc := pcInc s.pc
    let (va, S) ← c0v_pop s.S
    let a ← val2int va
    let (vb, S) ← c0v_pop S
    let b ← val2int vb
    pure { s with pc := pc, S := c0v_push S (int2val (c_or b a)) }
  | some .IXOR =>
    let pc := pcInc s.pc
    let (va, S) ← c0v_pop s.S
    let a ← val2int va
    let (vb, S) ← c0v_pop S
    let b ← val2int vb
    pure { s with pc := pc, S := c0v_push S (int2val (c_xor b a)) }
  | some .ISHR =>
    let pc := pcInc s.pc
    let (va, S) ← c0v_pop s.S
    let a ← val2int va
    let (vb, S) ← c0v_pop S
    let b ← val2int vb
    if a < 0 then throw (.arith_error "negative shift value")
    if a ≥ 32 then throw (.arith_error "shift value too large")
    pure { s with pc := pc, S := c0v_push S (int2val (c_shr b a)) }
  | some .ISHL =>
    let pc := pcInc s.pc
    let (va, S) ← c0v_pop s.S
    let a ← val2int va
    let (vb, S) ← c0v_pop S
    let b ← val2int vb
    if a < 0 then throw (.arith_error "negative shift value")
    if a ≥ 32 then throw (.arith_error "shift value too large")
    pure { s with pc := pc, S := c0v_push S (int2val (c_shl b a)) }
  | some .BIPUSH =>
    let pc := pcInc s.pc
    let b ← fetch s.P pc
    let S := c0v_push s.S (int2val (toI8 b))
    let pc := pcInc pc
    pure { s with pc := pc, S := S }
  | some .ILDC =>
    let pc := pcInc s.pc
    let c1 ← fetch s.P pc
    let pc := pcInc pc
    let c2 ← fetch s.P pc
    let pc := pcInc pc
    match bc0.int_pool[(c1 <<< 8) ||| c2]? with
    | none => throw .undefined_behaviour
    | some x => pure { s with pc := pc, S := c0v_push s.S (int2val (toI32 (toU32 x))) }
  | some .ALDC =>
    let pc := pcInc s.pc
    let c1 ← fetch s.P pc
    let pc := pcInc pc
    let c2 ← fetch s.P pc
    let pc := pcInc pc
    pure { s with pc := pc, S := c0v_push s.S (ptr2val (1 + ((c1 <<< 8) ||| c2))) }
  | some .ACONST_NULL =>
    let pc := pcInc s.pc
    pure { s with pc := pc, S := c0v_push s.S (ptr2val 0) }
  | some .VLOAD =>
    let pc := pcInc s.pc
    let i ← fetch s.P pc
    let pc := pcInc pc
    match s.V[i]? with
    | none => throw .undefined_behaviour
    | some v => pure { s with pc := pc, S := c0v_push s.S v }
  | some .VSTORE =>
    let pc := pcInc s.pc
    let i ← fetch s.P pc
    let pc := pcInc pc
    let (v, S) ← c0v_pop s.S
    if s.V.length ≤ i then throw .undefined_behaviour
    pure { s with pc := pc, S := S, V := s.V.set i v }
  | some .ATHROW =>
    -- the `pc++` of this case is never observed: `c0_user_error` does not return
    let (res, _) ← c0v_pop s.S
    let msg ← val2ptr res
    throw (.user_error msg)
  | some .ASSERT =>
    let pc := pcInc s.pc
    let (res, S) ← c0v_pop s.S
    let (vc, S) ← c0v_pop S
    let c ← val2int vc
    if c = 0 then
      let msg ← val2ptr res
      throw (.assertion_failure msg)
    pure { s with pc := pc, S := S }
  | some .NOP =>
    pure { s with pc := pcInc s.pc }
  | some .IF_CMPEQ =>
    let pc := pcInc s.pc
    let o1 ← fetch s.P pc
    let pc := pcInc pc
    let o2 ← fetch s.P pc
    let (v1, S) ← c0v_pop s.S
    let (v2, S) ← c0v_pop S
    if !val_equal v1 v2 then pure { s with pc := pcInc pc, S := S }
    else pure { s with pc := pcAdd pc ((((o1 <<< 8) ||| o2 : Nat) : Int) - 2), S := S }
  | some .IF_CMPNE =>
    let pc := pcInc s.pc
    let o1 ← fetch s.P pc
    let pc := pcInc pc
    let o2 ← fetch s.P pc
    let (v1, S) ← c0v_pop s.S
    let (v2, S) ← c0v_pop S
    if val_equal v1 v2 then pure { s with pc := pcInc pc, S := S }
    else pure { s with pc := pcAdd pc ((((o1 <<< 8) ||| o2 : Nat) : Int) - 2), S := S }
  | some .IF_ICMPLT =>
    let pc := pcInc s.pc
    let o1 ← fetch s.P pc
    let pc := pcInc pc
    let o2 ← fetch s.P pc
    let (v1, S) ← c0v_pop s.S
    let x1 ← val2int v1
    let (v2, S) ← c0v_pop S
    let x2 ← val2int v2
    if x1 ≤ x2 then pure { s with pc := pcInc pc, S := S }
    else pure { s with pc := pcAdd pc ((((o1 <<< 8) ||| o2 : Nat) : Int) - 2), S := S }
  | some .IF_ICMPGE =>
    let pc := pcInc s.pc
    let o1 ← fetch s.P pc
    let pc := pcInc pc
    let o2 ← fetch s.P pc
    let (v1, S) ← c0v_pop s.S
    let x1 ← val2int v1
    let (v2, S) ← c0v_pop S
    let x2 ← val2int v2
    if x1 > x2 then pure { s with pc := pcInc pc, S := S }
    else pure { s with pc := pcAdd pc ((((o1 <<< 8) ||| o2 : Nat) : Int) - 2), S := S }
  | some .IF_ICMPGT =>
    let pc := pcInc s.pc
    let o1 ← fetch s.P pc
    let pc := pcInc pc
    let o2 ← fetch s.P pc
    let (v1, S) ← c0v_pop s.S
    let x1 ← val2int v1
    let (v2, S) ← c0v_pop S
    let x2 ← val2int v2
    if x1 ≥ x2 then pure { s with pc := pcInc pc, S := S }
    else pure { s with pc := pcAdd pc ((((o1 <<< 8) ||| o2 : Nat) : Int) - 2), S := S }
  | some .IF_ICMPLE =>
    let pc := pcInc s.pc
    let o1 ← fetch s.P pc
    let pc := pcInc pc
    let o2 ← fetch s.P pc
    let (v1, S) ← c0v_pop s.S
    let x1 ← val2int v1
    let (v2, S) ← c0v_pop S
    let x2 ← val2int v2
    if x1 < x2 then pure { s with pc := pcInc pc, S := S }
    else pure { s with pc := pcAdd pc ((((o1 <<< 8) ||| o2 : Nat) : Int) - 2), S := S }
  | some .GOTO =>
    let pc := pcInc s.pc
    let o1 ← fetch s.P pc
    let pc := pcInc pc
    let o2 ← fetch s.P pc
    pure { s with pc := pcAdd pc (c_or (toI16 (o1 <<< 8)) (o2 : Int) - 2) }
  | some .INVOKESTATIC =>
    let pc := pcInc s.pc
    let c1 ← fetch s.P pc
    let pc := pcInc pc
    let c2 ← fetch s.P pc
    let pc := pcInc pc
    match bc0.function_pool[(c1 <<< 8) ||| c2]? with
    | none => throw .undefined_behaviour
    | some res =>
      let i := res.num_args % 65536
      let V := List.replicate (res.num_vars % 4294967296) (c0_value.int 0)
      -- `tmp->S` is the caller's stack object itself: the frame on the call stack sees
      -- the pops of the argument loop
      let (V, S) ← popArgs i V s.S
      let tmp : frame := { pc := pc, S := S, P := s.P, V := s.V }
      pure { s with pc := 0, V := V, P := res.code, S := [],
                    callStack := tmp :: s.callStack }
  | some .INVOKENATIVE =>
    let pc := pcInc s.pc
    let c1 ← fetch s.P pc
    let pc := pcInc pc
    let c2 ← fetch s.P pc
    let pc := pcInc pc
    match bc0.native_pool[(c1 <<< 8) ||| c2]? with
    | none => throw .undefined_behaviour
    | some ni =>
      let args := ni.num_args % 65536
      let index := ni.function_table_index % 65536
      let tmp := List.replicate ni.num_args (c0_value.int 0)
      let (tmp, S) ← popArgs args tmp s.S
      let (r, M) ← nft index tmp s.M
      pure { s with pc := pc, S := c0v_push S r, M := M }
  | some .NEW =>
    let pc := pcInc s.pc
    let res ← fetch s.P pc
    let pc := pcInc pc
    let (n, M) := xcalloc s.M res
    pure { s with pc := pc, S := c0v_push s.S (ptr2val n), M := M }
  | some .IMLOAD =>
    let pc := pcInc s.pc
    let (v, S) ← c0v_pop s.S
    let x ← val2ptr v
    if x = 0 then throw (.memory_error "Value is NULL")
    let bs ← loadBytes s.M x 4
    pure { s with pc := pc, S := c0v_push S (int2val (toI32 (leValue bs))) }
  | some .IMSTORE =>
    let pc := pcInc s.pc
    let (vi, S) ← c0v_pop s.S
    let i ← val2int vi
    let (vp, S) ← c0v_pop S
    let result ← val2ptr vp
    if result = 0 then throw (.memory_error "value is NULL")
    let M ← storeBytes s.M result (leBytes 4 (toU32 i))
    pure { s with pc := pc, S := S, M := M }
  | some .AMLOAD =>
    let pc := pcInc s.pc
    let (v, S) ← c0v_pop s.S
    let result ← val2ptr v
    if result = 0 then throw (.memory_error "value NULL")
    let bs ← loadBytes s.M result 8
    pure { s with pc := pc, S := c0v_push S (ptr2val (leValue bs)) }
  | some .AMSTORE =>
    let pc := pcInc s.pc
    let (v1, S) ← c0v_pop s.S
    let res1 ← val2ptr v1
    let (v2, S) ← c0v_pop S
    let res2 ← val2ptr v2
    if res2 = 0 then throw (.memory_error "value is NULL")
    let M ← storeBytes s.M res2 (leBytes 8 res1)
    pure { s with pc := pc, S := S, M := M }
  | some .CMLOAD =>
    let pc := pcInc s.pc
    let (v, S) ← c0v_pop s.S
    let result ← val2ptr v
    if result = 0 then throw (.memory_error "value is NULL")
    let bs ← loadBytes s.M result 1
    pure { s with pc := pc, S := c0v_push S (int2val (toI8 (leValue bs))) }
  | some .CMSTORE =>
    let pc := pcInc s.pc
    let (v, S) ← c0v_pop s.S
    let elem ← val2int v
    let (vp, S) ← c0v_pop S
    let elem1 ← val2ptr vp
    if elem1 = 0 then throw (.memory_error "NULL")
    let M ← storeBytes s.M elem1 [toU32 (c_and elem 0x7F) % 256]
    pure { s with pc := pc, S := S, M := M }
  | some .AADDF =>
    let pc := pcInc s.pc
    let size ← fetch s.P pc
    let (v, S) ← c0v_pop s.S
    let result ← val2ptr v
    if result = 0 then throw (.memory_error "NULL")
    let S := c0v_push S (ptr2val (result + size))
    let pc := pcInc pc
    pure { s with pc := pc, S := S }
  | some .NEWARRAY =>
    let pc := pcInc s.pc
    let size ← fetch s.P pc
    let (v, S) ← c0v_pop s.S
    let count ← val2int v
    let (new, M) := xcalloc s.M SIZEOF_C0_ARRAY
    let elt_size := size
    let cnt := toU32 count
    let (elems, M) := xcalloc M (elt_size * cnt)
    let M ← storeBytes M new (leBytes 4 cnt ++ leBytes 4 elt_size ++ leBytes 8 elems)
    let S := c0v_push S (ptr2val new)
    let pc := (pc + 2) % SIZE_MOD
    pure { s with pc := pc, S := S, M := M }
  | some .ARRAYLENGTH =>
    let pc := pcInc s.pc
    let (v, S) ← c0v_pop s.S
    let new ← val2ptr v
    let bs ← loadBytes s.M new 4
    pure { s with pc := pc, S := c0v_push S (int2val (toI32 (leValue bs))) }
  | some .AADDS =>
    let pc := pcInc s.pc
    let (vi, S) ← c0v_pop s.S
    let i ← val2int vi
    let (vp, S) ← c0v_pop S
    let new ← val2ptr vp
    if new = 0 then throw (.memory_error "val is NULL")
    if i < 0 then throw (.memory_error "invalid index")
    let cbs ← loadBytes s.M new 4
    if i ≥ toI32 (leValue cbs) then throw (.memory_error "index out of bounds")
    let sbs ← loadBytes s.M (new + 4) 4
    let ebs ← loadBytes s.M (new + 8) 8
    let res := ptr2val (leValue ebs + (leValue sbs * toU32 i) % 4294967296)
    pure { s with pc := pc, S := c0v_push S res }
  | some .CHECKTAG => throw (.invalid_opcode op)
  | some .HASTAG => throw (.invalid_opcode op)
  | some .ADDTAG => throw (.invalid_opcode op)
  | some .ADDROF_STATIC => throw (.invalid_opcode op)
  | some .ADDROF_NATIVE => throw (.invalid_opcode op)
  | some .INVOKEDYNAMIC => throw (.invalid_opcode op)
  | none => throw (.invalid_opcode op)

/-! ## The interpreter -/

/-- The declarations of `execute` before its loop: the active frame is function 0 at
`pc = 0` with an empty operand stack, zeroed locals and an empty call stack. -/
def initial (bc0 : bc0_file) : Except Halt State :=
  match bc0.function_pool[0]? with
  | none => .error .undefined_behaviour
  | some f =>
    .ok { S := [], P := f.code, pc := 0,
          V := List.replicate f.num_vars (c0_value.int 0),
          callStack := [], M := bc0.string_pool }

/-- State after `n` iterations of the loop, or the way the loop was left before. -/
def steps (nft : NativeTable) (bc0 : bc0_file) : Nat → State → Except Halt State
  | 0, s => .ok s
  | n + 1, s =>
    match step nft bc0 s with
    | .ok s1 => steps nft bc0 n s1
    | .error h => .error h

/-- The loop of `execute` run for at most `fuel` iterations: `some h` when the loop is left
within that many iterations, `none` when it is still running. -/
def run (nft : NativeTable) (bc0 : bc0_file) : Nat → State → Option Halt
  | 0, _ => none
  | fuel + 1, s =>
    match step nft bc0 s with
    | .ok s1 => run nft bc0 fuel s1
    | .error h => some h

/-- The function `execute` of `c0vm.c`, with a bound on the number of loop iterations. -/
def execute (nft : NativeTable) (bc0 : bc0_file) (fuel : Nat) : Option Halt :=
  match initial bc0 with
  | .error h => some h
  | .ok s => run nft bc0 fuel s

/-- A native function table with no usable entry. -/
def noNatives : NativeTable := fun _ _ _ => .error .undefined_behaviour

/-- Equality of outcomes is decidable. -/
instance instDecidableEqExcept {ε α : Type} [DecidableEq ε] [DecidableEq α] :
    DecidableEq (Except ε α) := fun x y =>
  match x, y with
  | .ok a, .ok b =>
    if h : a = b then isTrue (by rw [h]) else isFalse (fun h2 => by cases h2; exact h rfl)
  | .error a, .error b =>
    if h : a = b then isTrue (by rw [h]) else isFalse (fun h2 => by cases h2; exact h rfl)
  | .ok _, .error _ => isFalse (fun h2 => by cases h2)
  | .error _, .ok _ => isFalse (fun h2 => by cases h2)

/-! ## Programs and states used as concrete inputs -/

/-- Program `{ BIPUSH 1; BIPUSH 0; IDIV; RETURN }` as function 0. -/
def divByZeroProgram : bc0_file :=
  { int_pool := [], string_pool := [], native_pool := [],
    function_pool := [{ num_args := 0, num_vars := 0, code := [0x10, 1, 0x10, 0, 0x6C, 0xB0] }] }

/-- A program with no function, for steps that do not look at the pools. -/
def emptyProgram : bc0_file :=
  { int_pool := [], string_pool := [], native_pool := [], function_pool := [] }

/-- A state about to run the one-byte code `[op]` on the operand stack `S`. -/
def stateAt (op : Nat) (S : List c0_value) : State :=
  { S := S, P := [op], pc := 0, V := [], callStack := [], M := [] }

/-- Signed 16-bit big-endian value of the operand bytes `(o1, o2)`: the branch offset of
the specification, in `[-32768, 32767]`. -/
def branchOffset (o1 o2 : Nat) : Int :=
  if 256 * o1 + o2 < 32768 then ((256 * o1 + o2 : Nat) : Int)
  else ((256 * o1 + o2 : Nat) : Int) - 65536

/-- Outcome of a conditional branch at `s` with operand bytes `(o1, o2)` that leaves the
operand stack `rest`: when `taken`, `pc` moves by the unsigned 16-bit value of the operand
bytes (modulo `2^64`); otherwise `pc` moves past the three bytes of the instruction. -/
def branchResult (s : State) (rest : List c0_value) (taken : Bool) (o1 o2 : Nat) : State :=
  { s with S := rest,
           pc := if taken then (s.pc + (256 * o1 + o2)) % SIZE_MOD else s.pc + 3 }

/-- A state about to run the three-byte code `[op, o1, o2]` on the operand stack `S`. -/
def branchState (op o1 o2 : Nat) (S : List c0_value) : State :=
  { S := S, P := [op, o1, o2], pc := 0, V := [], callStack := [], M := [] }

/-- A state about to run, at position 10, the branch `op` with operand bytes `FF F6`
(offset `-10`, a jump back to position 0) on the operand stack `S`. -/
def backwardBranchState (op : Nat) (S : List c0_value) : State :=
  { S := S, P := List.replicate 10 0 ++ [op, 0xFF, 0xF6], pc := 10, V := [], callStack := [],
    M := [] }

/-- Caller `{ BIPUSH 7; INVOKESTATIC 1; RETURN }` as function 0; callee
`{ BIPUSH 9; RETURN }`, which takes one argument and has two locals, as function 1. -/
def callProgram : bc0_file :=
  { int_pool := [], string_pool := [], native_pool := [],
    function_pool :=
      [{ num_args := 0, num_vars := 0, code := [0x10, 7, 0xB8, 0, 1, 0xB0] },
       { num_args := 1, num_vars := 2, code := [0x10, 9, 0xB0] }] }

/-- State of `callProgram` after its first instruction: function 0 is at its INVOKESTATIC
(position 2) with the argument `7` on the operand stack. -/
def callState : State :=
  { S := [c0_value.int 7], P := [0x10, 7, 0xB8, 0, 1, 0xB0], pc := 2, V := [],
    callStack := [], M := [] }

/-- State of `callProgram` on entry to the callee. -/
def calleeEntry : State :=
  { S := [], P := [0x10, 9, 0xB0], pc := 0, V := [c0_value.int 7, c0_value.int 0],
    callStack := [{ S := [], P := [0x10, 7, 0xB8, 0, 1, 0xB0], pc := 5, V := [] }], M := [] }

/-- State of `callProgram` at the RETURN of the callee. -/
def calleeReturn : State :=
  { calleeEntry with S := [c0_value.int 9], pc := 2 }

/-- State of `callProgram` back in the caller, after the RETURN of the callee. -/
def callerResumed : State :=
  { callState with S := [c0_value.int 9], pc := 5 }

/-- The opcode bytes with a `case` of their own in the `switch` of `execute` that is not
one of the six unimplemented extended opcodes. -/
def supportedOpcodes : List Nat :=
  [0x00, 0x01, 0x10, 0x13, 0x14, 0x15, 0x2E, 0x2F, 0x34, 0x36, 0x4E, 0x4F, 0x55, 0x57, 0x59,
   0x5F, 0x60, 0x62, 0x63, 0x64, 0x68, 0x6C, 0x70, 0x78, 0x7A, 0x7E, 0x80, 0x82, 0x9F, 0xA0,
   0xA1, 0xA2, 0xA3, 0xA4, 0xA7, 0xB0, 0xB7, 0xB8, 0xBB, 0xBC, 0xBE, 0xBF, 0xCF]

/-- Program `{ BIPUSH 5; BIPUSH 3; IADD; RETURN }` as function 0. -/
def addProgram : bc0_file :=
  { int_pool := [], string_pool := [], native_pool := [],
    function_pool := [{ num_args := 0, num_vars := 0, code := [0x10, 5, 0x10, 3, 0x60, 0xB0] }] }

/-- Program whose function 0 is `BIPUSH 3; NEWARRAY 4; BIPUSH 5; AADDS` (bytes
`10 03 BC 04 10 05 63`) followed by the bytes `tail`. -/
def arrayProgram (tail : List Nat) : bc0_file :=
  { int_pool := [], string_pool := [], native_pool := [],
    function_pool :=
      [{ num_args := 0, num_vars := 0,
         code := [0x10, 0x03, 0xBC, 0x04, 0x10, 0x05, 0x63] ++ tail }] }

/-- Program `arrayProgram` with one padding byte after the operand byte of NEWARRAY, which
the code skips: `BIPUSH 3; NEWARRAY 4; (00); BIPUSH 5; AADDS`. -/
def paddedArrayProgram : bc0_file :=
  { int_pool := [], string_pool := [], native_pool := [],
    function_pool :=
      [{ num_args := 0, num_vars := 0,
         code := [0x10, 0x03, 0xBC, 0x04, 0x00, 0x10, 0x05, 0x63] }] }

/-- Heap holding one array as NEWARRAY lays it out: at address 1 the header (`count = 3`,
`elt_size = 4`, `elems = 17`), at address 17 the twelve bytes of the elements. -/
def arrayHeap : List Nat :=
  [3, 0, 0, 0, 4, 0, 0, 0, 17, 0, 0, 0, 0, 0, 0, 0] ++ List.replicate 12 0

/-- The factorial program: function 0 is `BIPUSH n; INVOKESTATIC 1; RETURN`; function 1
(one argument, one local) is `VLOAD 0; BIPUSH 0; IF_CMPEQ +6; GOTO +6; BIPUSH 1; RETURN;
VLOAD 0; VLOAD 0; BIPUSH 1; ISUB; INVOKESTATIC 1; IMUL; RETURN`. -/
def factProgram (n : Nat) : bc0_file :=
  { int_pool := [], string_pool := [], native_pool := [],
    function_pool :=
      [{ num_args := 0, num_vars := 0, code := [0x10, n, 0xB8, 0x00, 0x01, 0xB0] },
       { num_args := 1, num_vars := 1,
         code := [0x15, 0x00, 0x10, 0x00, 0x9F, 0x00, 0x06, 0xA7, 0x00, 0x06, 0x10, 0x01, 0xB0,
                  0x15, 0x00, 0x15, 0x00, 0x10, 0x01, 0x64, 0xB8, 0x00, 0x01, 0x68, 0xB0] }] }

/-- Number of immediate operand bytes that the specification gives each opcode that is not
a control-flow opcode (branch, GOTO, INVOKESTATIC, RETURN): 0, 1 or 2. -/
def specOperandBytes : Opcode → Option Nat
  | .POP | .DUP | .SWAP => some 0
  | .IADD | .ISUB | .IMUL | .IDIV | .IREM | .IAND | .IOR | .IXOR | .ISHL | .ISHR => some 0
  | .ACONST_NULL | .NOP | .ASSERT => some 0
  | .IMLOAD | .IMSTORE | .AMLOAD | .AMSTORE | .CMLOAD | .CMSTORE => some 0
  | .ARRAYLENGTH | .AADDS => some 0
  | .BIPUSH | .VLOAD | .VSTORE | .NEW | .AADDF | .NEWARRAY => some 1
  | .ILDC | .ALDC | .INVOKENATIVE => some 2
  | _ => none

/-- State of `arrayProgram []` after its first instruction: at the NEWARRAY of position 2
with the count `3` on the operand stack. -/
def newarrayState : State :=
  { S := [c0_value.int 3], P := [0x10, 0x03, 0xBC, 0x04, 0x10, 0x05, 0x63], pc := 2, V := [],
    callStack := [], M := [] }

/-- Program that makes an array of `536870913 = 2^29 + 1` elements of 8 bytes and indexes it
at `536870912 = 2^29`: `ILDC 0; NEWARRAY 8; (00); ILDC 1; AADDS` as function 0, with the
two numbers in the integer pool.  The byte after the operand of NEWARRAY is padding,
which the code skips. -/
def bigArrayProgram : bc0_file :=
  { int_pool := [536870913, 536870912], string_pool := [], native_pool := [],
    function_pool :=
      [{ num_args := 0, num_vars := 0,
         code := [0x13, 0x00, 0x00, 0xBC, 0x08, 0x00, 0x13, 0x00, 0x01, 0x63] }] }

/-- Array header of `bigArrayProgram` as NEWARRAY lays it out at address 1:
`count = 0x20000001`, `elt_size = 8`, `elems = 17`. -/
def bigArrayHeader : List Nat :=
  [0x01, 0x00, 0x00, 0x20, 8, 0, 0, 0, 17, 0, 0, 0, 0, 0, 0, 0]

/-- State of `bigArrayProgram` at position `pc` with the operand stack `S` and the heap
`M`. -/
def bigArrayState (pc : Nat) (S : List c0_value) (M : List Nat) : State :=
  { S := S, P := [0x13, 0x00, 0x00, 0xBC, 0x08, 0x00, 0x13, 0x00, 0x01, 0x63], pc := pc,
    V := [], callStack := [], M := M }

/-! # Theorems -/

/-! ## Machine integer lemmas -/

theorem toU32_cast (x : Int) : ((toU32 x : Nat) : Int) = x % 4294967296 := by
  unfold toU32
  exact Int.toNat_of_nonneg (Int.emod_nonneg _ (by norm_num))

theorem toU32_lt (x : Int) : toU32 x < 4294967296 := by
  have h := toU32_cast x
  have := Int.emod_lt_of_pos x (show (0:Int) < 4294967296 by norm_num)
  omega

theorem toI32_isInt32 (u : Nat) : isInt32 (toI32 u) := by
  unfold toI32 isInt32
  split <;> omega

theorem toI32_emod (u : Nat) : toI32 u % 4294967296 = (u : Int) % 4294967296 := by
  unfold toI32
  split <;> omega

theorem toI32_toU32 (x : Int) (h : isInt32 x) : toI32 (toU32 x) = x := by
  have h1 := toU32_cast x
  unfold isInt32 at h
  unfold toI32
  split <;> omega

theorem tmod_natAbs (b a : Int) : (Int.tmod b a).natAbs = b.natAbs % a.natAbs := by
  cases b <;> cases a <;> simp [Int.tmod] <;> rfl

theorem tmod_sign (b a : Int) :
    Int.tmod b a = 0 ∨ (0 < Int.tmod b a ∧ 0 < b) ∨ (Int.tmod b a < 0 ∧ b < 0) := by
  rcases b with m | m <;> rcases a with n | n <;>
    simp only [Int.tmod, Int.ofNat_eq_coe, Int.negSucc_eq]
  · have := Nat.mod_le m n
    generalize m % n = k at *
    omega
  · have := Nat.mod_le m n.succ
    generalize m % n.succ = k at *
    omega
  · generalize m.succ % n = k at *
    omega
  · generalize m.succ % n.succ = k at *
    omega

/-! ## Arithmetic instructions -/

/-- C1: on a stack `a :: b :: rest` (`a` on top), IADD, ISUB and IMUL push the one `int32_t`
congruent modulo `2^32` to `a + b`, `b - a` and `a * b`, advance `pc` by one, and raise no
error. -/
theorem C1_iadd_isub_imul_wrap (nft : NativeTable) (bc0 : bc0_file) (s : State) (a b : Int)
    (rest : List c0_value) (hS : s.S = c0_value.int a :: c0_value.int b :: rest) :
    (s.P[s.pc]? = some 0x60 → ∃ r, step nft bc0 s
        = .ok { s with pc := pcInc s.pc, S := c0_value.int r :: rest }
        ∧ isInt32 r ∧ r % 4294967296 = (a + b) % 4294967296) ∧
    (s.P[s.pc]? = some 0x64 → ∃ r, step nft bc0 s
        = .ok { s with pc := pcInc s.pc, S := c0_value.int r :: rest }
        ∧ isInt32 r ∧ r % 4294967296 = (b - a) % 4294967296) ∧
    (s.P[s.pc]? = some 0x68 → ∃ r, step nft bc0 s
        = .ok { s with pc := pcInc s.pc, S := c0_value.int r :: rest }
        ∧ isInt32 r ∧ r % 4294967296 = (a * b) % 4294967296) := by
  have ha := toU32_cast a
  have hb := toU32_cast b
  have hla := toU32_lt a
  have hlb := toU32_lt b
  refine ⟨fun hop => ⟨toI32 ((toU32 a + toU32 b) % 4294967296), ?_, toI32_isInt32 _, ?_⟩,
    fun hop => ⟨toI32 ((4294967296 + toU32 b - toU32 a) % 4294967296), ?_, toI32_isInt32 _, ?_⟩,
    fun hop => ⟨toI32 ((toU32 a * toU32 b) % 4294967296), ?_, toI32_isInt32 _, ?_⟩⟩
  · simp [step, fetch, hop, decode, hS, c0v_pop, val2int, c0v_push, int2val, bind,
      Except.bind, pure, Except.pure]
  · rw [toI32_emod]; push_cast; rw [ha, hb]; omega
  · simp [step, fetch, hop, decode, hS, c0v_pop, val2int, c0v_push, int2val, bind,
      Except.bind, pure, Except.pure]
  · rw [toI32_emod]; push_cast; omega
  · simp [step, fetch, hop, decode, hS, c0v_pop, val2int, c0v_push, int2val, bind,
      Except.bind, pure, Except.pure]
  · rw [toI32_emod]; push_cast; rw [ha, hb]
    simp [Int.mul_emod]

/-- C1 at `INT_MAX + 1`: IADD on the stack `1 :: INT_MAX` pushes `INT_MIN`. -/
theorem C1_iadd_isub_imul_wrap_witness :
    step noNatives emptyProgram (stateAt 0x60 [c0_value.int 1, c0_value.int INT_MAX])
      = .ok { stateAt 0x60 [c0_value.int 1, c0_value.int INT_MAX] with
              pc := 1, S := [c0_value.int INT_MIN] } ∧
    ∃ r, step noNatives emptyProgram (stateAt 0x60 [c0_value.int 1, c0_value.int INT_MAX])
        = .ok { stateAt 0x60 [c0_value.int 1, c0_value.int INT_MAX] with
                pc := 1, S := [c0_value.int r] }
        ∧ isInt32 r ∧ r % 4294967296 = (1 + INT_MAX) % 4294967296 :=
  ⟨by decide, (C1_iadd_isub_imul_wrap noNatives emptyProgram
    (stateAt 0x60 [c0_value.int 1, c0_value.int INT_MAX]) 1 INT_MAX [] rfl).1 rfl⟩

/-- C2: on a stack `a :: b :: rest`, IDIV and IREM raise an arithmetic error exactly when
`a = 0` or (`a = -1` and `b = INT_MIN`); when they raise there is no next state; and the
program `{ BIPUSH 1; BIPUSH 0; IDIV; RETURN }` stops with an arithmetic error. -/
theorem C2_idiv_irem_arith_error (nft : NativeTable) (bc0 : bc0_file) (s : State) (a b : Int)
    (rest : List c0_value) (hS : s.S = c0_value.int a :: c0_value.int b :: rest)
    (hop : s.P[s.pc]? = some 0x6C ∨ s.P[s.pc]? = some 0x70) :
    ((∃ msg, step nft bc0 s = .error (.arith_error msg)) ↔ (a = 0 ∨ (a = -1 ∧ b = INT_MIN))) ∧
    ((a = 0 ∨ (a = -1 ∧ b = INT_MIN)) → ∀ s1, step nft bc0 s ≠ .ok s1) ∧
    (∀ fuel, ∃ msg, execute nft divByZeroProgram (fuel + 3) = some (.arith_error msg)) := by
  have key : (∃ msg, step nft bc0 s = .error (.arith_error msg)) ↔
      (a = 0 ∨ (a = -1 ∧ b = INT_MIN)) := by
    rcases hop with hop | hop <;> by_cases h0 : a = 0 <;> by_cases h1 : a = -1 ∧ b = INT_MIN <;>
      simp [step, fetch, hop, decode, hS, c0v_pop, val2int, c0v_push, int2val, bind,
        Except.bind, pure, Except.pure, h0, h1, throw, throwThe, MonadExceptOf.throw]
  refine ⟨key, ?_, fun fuel => ⟨_, rfl⟩⟩
  intro h s1 hs
  obtain ⟨msg, hm⟩ := key.mpr h
  rw [hm] at hs
  cases hs

/-- C2 at the stack `0 :: 1`: IDIV raises the arithmetic error. -/
theorem C2_idiv_irem_arith_error_witness :
    ((∃ msg, step noNatives emptyProgram (stateAt 0x6C [c0_value.int 0, c0_value.int 1])
        = .error (.arith_error msg)) ↔ ((0 : Int) = 0 ∨ ((0 : Int) = -1 ∧ (1 : Int) = INT_MIN))) ∧
    (((0 : Int) = 0 ∨ ((0 : Int) = -1 ∧ (1 : Int) = INT_MIN)) → ∀ s1,
      step noNatives emptyProgram (stateAt 0x6C [c0_value.int 0, c0_value.int 1]) ≠ .ok s1) ∧
    (∀ fuel, ∃ msg, execute noNatives divByZeroProgram (fuel + 3) = some (.arith_error msg)) :=
  C2_idiv_irem_arith_error noNatives emptyProgram
    (stateAt 0x6C [c0_value.int 0, c0_value.int 1]) 0 1 [] rfl (Or.inl rfl)

/-- C3: on a stack `a :: b :: rest` of `int32_t`s with `a ≠ 0` and not (`a = -1` and
`b = INT_MIN`), IDIV pushes `q` and IREM pushes `r`, where `q` is `b / a` truncated toward
zero and `r` the remainder: `q * a + r = b`, `|r| < |a|`, `r` is zero or has the sign of
`b`, and `|q| = floor(|b| / |a|)`. -/
theorem C3_idiv_irem_truncating (nft : NativeTable) (bc0 : bc0_file) (s : State) (a b : Int)
    (rest : List c0_value) (ha : isInt32 a) (hb : isInt32 b)
    (hS : s.S = c0_value.int a :: c0_value.int b :: rest)
    (h0 : a ≠ 0) (h1 : ¬ (a = -1 ∧ b = INT_MIN)) :
    ∃ q r : Int,
      (s.P[s.pc]? = some 0x6C →
        step nft bc0 s = .ok { s with pc := pcInc s.pc, S := c0_value.int q :: rest }) ∧
      (s.P[s.pc]? = some 0x70 →
        step nft bc0 s = .ok { s with pc := pcInc s.pc, S := c0_value.int r :: rest }) ∧
      q * a + r = b ∧ r.natAbs < a.natAbs ∧
      (r = 0 ∨ (0 < r ∧ 0 < b) ∨ (r < 0 ∧ b < 0)) ∧
      q.natAbs = b.natAbs / a.natAbs ∧ isInt32 q ∧ isInt32 r := by
  have hr : (Int.tmod b a).natAbs < a.natAbs := by
    rw [tmod_natAbs]
    exact Nat.mod_lt _ (by omega)
  have hq : (Int.tdiv b a).natAbs = b.natAbs / a.natAbs := Int.natAbs_tdiv b a
  have hqr : Int.tdiv b a * a + Int.tmod b a = b := Int.tdiv_add_tmod' b a
  refine ⟨Int.tdiv b a, Int.tmod b a, ?_, ?_, hqr, hr, tmod_sign b a, hq, ?_, ?_⟩
  · intro hop
    simp [step, fetch, hop, decode, hS, c0v_pop, val2int, c0v_push, int2val, bind,
      Except.bind, pure, Except.pure, h0, h1, throw, throwThe, MonadExceptOf.throw]
  · intro hop
    simp [step, fetch, hop, decode, hS, c0v_pop, val2int, c0v_push, int2val, bind,
      Except.bind, pure, Except.pure, h0, h1, throw, throwThe, MonadExceptOf.throw]
  · unfold isInt32 INT_MIN at *
    by_cases hone : a.natAbs = 1
    · rw [hone, Nat.div_one] at hq
      have : a = 1 ∨ a = -1 := by omega
      rcases this with h | h
      · subst h
        rw [Int.tdiv_one]
        omega
      · have : b ≠ -2147483648 := fun hb2 => h1 ⟨h, hb2⟩
        subst h
        rw [show (-1 : Int) = -(1 : Int) from rfl, Int.tdiv_neg, Int.tdiv_one]
        omega
    · have h2 : 2 ≤ a.natAbs := by omega
      have := Nat.div_le_div_left h2 (by norm_num : 0 < 2) (a := b.natAbs)
      omega
  · unfold isInt32 at *
    omega

/-- C3 at `-7 / 2`: the properties single out the quotient `-3`, which IDIV pushes. -/
theorem C3_idiv_irem_truncating_witness :
    step noNatives emptyProgram (stateAt 0x6C [c0_value.int 2, c0_value.int (-7)])
      = .ok { stateAt 0x6C [c0_value.int 2, c0_value.int (-7)] with
              pc := 1, S := [c0_value.int (-3)] } := by
  obtain ⟨q, r, hq, _, h1, h2, h3, _, _, _⟩ :=
    C3_idiv_irem_truncating noNatives emptyProgram
      (stateAt 0x6C [c0_value.int 2, c0_value.int (-7)]) 2 (-7) [] (by decide) (by decide) rfl
      (by decide) (by decide)
  have h : q = -3 := by omega
  rw [hq rfl, h]
  rfl

/-- C4: on a stack `a :: b :: rest`, ISHL and ISHR raise an arithmetic error exactly when
`a < 0` or `a ≥ 32`; otherwise ISHL pushes the `int32_t` congruent to `b * 2^a` modulo
`2^32` and ISHR pushes `floor(b / 2^a)`. -/
theorem C4_ishl_ishr_shift (nft : NativeTable) (bc0 : bc0_file) (s : State) (a b : Int)
    (rest : List c0_value) (hS : s.S = c0_value.int a :: c0_value.int b :: rest)
    (hop : s.P[s.pc]? = some 0x78 ∨ s.P[s.pc]? = some 0x7A) :
    ((∃ msg, step nft bc0 s = .error (.arith_error msg)) ↔ (a < 0 ∨ a ≥ 32)) ∧
    (0 ≤ a → a < 32 →
      (s.P[s.pc]? = some 0x78 → ∃ r, step nft bc0 s
          = .ok { s with pc := pcInc s.pc, S := c0_value.int r :: rest }
          ∧ isInt32 r ∧ r % 4294967296 = (b * 2 ^ a.toNat) % 4294967296) ∧
      (s.P[s.pc]? = some 0x7A → step nft bc0 s
          = .ok { s with pc := pcInc s.pc,
                         S := c0_value.int (Int.fdiv b (2 ^ a.toNat)) :: rest })) := by
  constructor
  · rcases hop with hop | hop <;> by_cases h0 : a < 0 <;> by_cases h1 : 32 ≤ a <;>
      simp [step, fetch, hop, decode, hS, c0v_pop, val2int, c0v_push, int2val, bind,
        Except.bind, pure, Except.pure, h0, h1, throw, throwThe, MonadExceptOf.throw]
  · intro h0 h1
    have h0' : ¬ a < 0 := by omega
    have h1' : ¬ 32 ≤ a := by omega
    constructor
    · intro hop
      refine ⟨c_shl b a, ?_, toI32_isInt32 _, ?_⟩
      · simp [step, fetch, hop, decode, hS, c0v_pop, val2int, c0v_push, int2val, bind,
          Except.bind, pure, Except.pure, h0', h1', throw, throwThe, MonadExceptOf.throw]
      · unfold c_shl
        rw [toI32_emod, Nat.shiftLeft_eq]
        push_cast
        rw [toU32_cast]
        simp [Int.mul_emod]
    · intro hop
      have hf : Int.fdiv b (2 ^ a.toNat) = c_shr b a := by
        unfold c_shr
        rw [Int.shiftRight_eq_div_pow, Int.fdiv_eq_ediv]
        · norm_cast
        · positivity
      rw [hf]
      simp [step, fetch, hop, decode, hS, c0v_pop, val2int, c0v_push, int2val, bind,
          Except.bind, pure, Except.pure, h0', h1', throw, throwThe, MonadExceptOf.throw]

/-- C4 at `-8 >> 1` and a shift by 32: ISHR pushes `-4`, and a shift amount of 32 raises. -/
theorem C4_ishl_ishr_shift_witness :
    step noNatives emptyProgram (stateAt 0x7A [c0_value.int 1, c0_value.int (-8)])
      = .ok { stateAt 0x7A [c0_value.int 1, c0_value.int (-8)] with
              pc := 1, S := [c0_value.int (-4)] } ∧
    ∃ msg, step noNatives emptyProgram (stateAt 0x78 [c0_value.int 32, c0_value.int 1])
      = .error (.arith_error msg) :=
  ⟨((C4_ishl_ishr_shift noNatives emptyProgram
      (stateAt 0x7A [c0_value.int 1, c0_value.int (-8)]) 1 (-8) [] rfl (Or.inr rfl)).2
      (by decide) (by decide)).2 rfl,
   (C4_ishl_ishr_shift noNatives emptyProgram
      (stateAt 0x78 [c0_value.int 32, c0_value.int 1]) 32 1 [] rfl (Or.inl rfl)).1.mpr
      (Or.inr (by decide))⟩

/-! ## Control flow -/

theorem pcInc_of_lt (p : Nat) (h : p + 1 < 18446744073709551616) : pcInc p = p + 1 := by
  unfold pcInc SIZE_MOD
  omega

theorem shl8_or (o1 o2 : Nat) (h2 : o2 < 256) : (o1 <<< 8) ||| o2 = 256 * o1 + o2 := by
  rw [Nat.shiftLeft_eq, Nat.mul_comm]
  exact (Nat.mul_add_lt_is_or (i := 8) (by simpa using h2) o1).symm

theorem pcAdd_unsigned (p o1 o2 : Nat) :
    pcAdd (p + 2) (256 * (o1 : Int) + (o2 : Int) - 2) = (p + (256 * o1 + o2)) % SIZE_MOD := by
  unfold pcAdd SIZE_MOD
  have : ((p + 2 : Nat) : Int) + (256 * (o1 : Int) + (o2 : Int) - 2)
      = ((p + (256 * o1 + o2) : Nat) : Int) := by push_cast; ring
  rw [this]
  omega

theorem val_equal_eq_decide (x y : c0_value) : val_equal x y = decide (y = x) := by
  cases x <;> cases y <;> simp [val_equal, eq_comm]

theorem fetch_of_get (P : List Nat) (p b : Nat) (h : P[p]? = some b) (hb : b < 256) :
    fetch P p = .ok b := by
  simp [fetch, h, Nat.mod_eq_of_lt hb]

theorem get_lt_length (P : List Nat) (p b : Nat) (h : P[p]? = some b) : p < P.length := by
  by_contra hc
  rw [List.getElem?_eq_none (by omega)] at h
  cases h

/-- C9: each of the six conditional branches pops `a` (top) and `b` (second) and is taken
exactly when `b OP a` holds (equality of tagged values for IF_CMPEQ and IF_CMPNE, signed
comparison for the other four); when it is not taken `pc` becomes the opcode position
plus 3. -/
theorem C9_conditional_branch_polarity (nft : NativeTable) (bc0 : bc0_file) (s : State)
    (o1 o2 : Nat) (rest : List c0_value)
    (h1 : s.P[s.pc + 1]? = some o1) (h2 : s.P[s.pc + 2]? = some o2)
    (ho1 : o1 < 256) (ho2 : o2 < 256) (hlen : s.P.length < 18446744073709551616) :
    (∀ va vb : c0_value, s.S = va :: vb :: rest → s.P[s.pc]? = some 0x9F →
      step nft bc0 s = .ok (branchResult s rest (decide (vb = va)) o1 o2)) ∧
    (∀ va vb : c0_value, s.S = va :: vb :: rest → s.P[s.pc]? = some 0xA0 →
      step nft bc0 s = .ok (branchResult s rest (decide (vb ≠ va)) o1 o2)) ∧
    (∀ a b : Int, s.S = c0_value.int a :: c0_value.int b :: rest → s.P[s.pc]? = some 0xA1 →
      step nft bc0 s = .ok (branchResult s rest (decide (b < a)) o1 o2)) ∧
    (∀ a b : Int, s.S = c0_value.int a :: c0_value.int b :: rest → s.P[s.pc]? = some 0xA2 →
      step nft bc0 s = .ok (branchResult s rest (decide (b ≥ a)) o1 o2)) ∧
    (∀ a b : Int, s.S = c0_value.int a :: c0_value.int b :: rest → s.P[s.pc]? = some 0xA3 →
      step nft bc0 s = .ok (branchResult s rest (decide (b > a)) o1 o2)) ∧
    (∀ a b : Int, s.S = c0_value.int a :: c0_value.int b :: rest → s.P[s.pc]? = some 0xA4 →
      step nft bc0 s = .ok (branchResult s rest (decide (b ≤ a)) o1 o2)) := by
  have hl := get_lt_length _ _ _ h2
  have e1 : pcInc s.pc = s.pc + 1 := pcInc_of_lt _ (by omega)
  have e2 : pcInc (s.pc + 1) = s.pc + 2 := pcInc_of_lt _ (by omega)
  have e3 : pcInc (s.pc + 2) = s.pc + 3 := pcInc_of_lt _ (by omega)
  have f1 := fetch_of_get _ _ _ h1 ho1
  have f2 := fetch_of_get _ _ _ h2 ho2
  have ht := pcAdd_unsigned s.pc o1 o2
  refine ⟨?_, ?_, ?_, ?_, ?_, ?_⟩
  · intro va vb hS hop
    have f0 := fetch_of_get _ _ _ hop (by norm_num)
    by_cases hc : vb = va
    · subst hc
      have hv : val_equal vb vb = true := by rw [val_equal_eq_decide]; simp
      simp [step, f0, f1, f2, e1, e2, e3, decode, hS, c0v_pop, bind, Except.bind, pure,
        Except.pure, shl8_or o1 o2 ho2, ht, branchResult, hv]
    · have hv : val_equal va vb = false := by rw [val_equal_eq_decide]; simp [hc]
      simp [step, f0, f1, f2, e1, e2, e3, decode, hS, c0v_pop, bind, Except.bind, pure,
        Except.pure, shl8_or o1 o2 ho2, ht, branchResult, hc, hv]
  · intro va vb hS hop
    have f0 := fetch_of_get _ _ _ hop (by norm_num)
    by_cases hc : vb = va
    · subst hc
      have hv : val_equal vb vb = true := by rw [val_equal_eq_decide]; simp
      simp [step, f0, f1, f2, e1, e2, e3, decode, hS, c0v_pop, bind, Except.bind, pure,
        Except.pure, shl8_or o1 o2 ho2, ht, branchResult, hv]
    · have hv : val_equal va vb = false := by rw [val_equal_eq_decide]; simp [hc]
      simp [step, f0, f1, f2, e1, e2, e3, decode, hS, c0v_pop, bind, Except.bind, pure,
        Except.pure, shl8_or o1 o2 ho2, ht, branchResult, hc, hv]
  · intro a b hS hop
    have f0 := fetch_of_get _ _ _ hop (by norm_num)
    by_cases hc : a ≤ b
    · have hn : ¬ b < a := by omega
      simp [step, f0, f1, f2, e1, e2, e3, decode, hS, c0v_pop, val2int, bind, Except.bind,
        pure, Except.pure, shl8_or o1 o2 ho2, ht, branchResult, hc, hn]
    · have hn : b < a := by omega
      simp [step, f0, f1, f2, e1, e2, e3, decode, hS, c0v_pop, val2int, bind, Except.bind,
        pure, Except.pure, shl8_or o1 o2 ho2, ht, branchResult, hc, hn]
  · intro a b hS hop
    have f0 := fetch_of_get _ _ _ hop (by norm_num)
    by_cases hc : b < a
    · have hn : ¬ a ≤ b := by omega
      simp [step, f0, f1, f2, e1, e2, e3, decode, hS, c0v_pop, val2int, bind, Except.bind,
        pure, Except.pure, shl8_or o1 o2 ho2, ht, branchResult, hc, hn]
    · have hn : a ≤ b := by omega
      simp [step, f0, f1, f2, e1, e2, e3, decode, hS, c0v_pop, val2int, bind, Except.bind,
        pure, Except.pure, shl8_or o1 o2 ho2, ht, branchResult, hc, hn]
  · intro a b hS hop
    have f0 := fetch_of_get _ _ _ hop (by norm_num)
    by_cases hc : b ≤ a
    · have hn : ¬ a < b := by omega
      simp [step, f0, f1, f2, e1, e2, e3, decode, hS, c0v_pop, val2int, bind, Except.bind,
        pure, Except.pure, shl8_or o1 o2 ho2, ht, branchResult, hc, hn]
    · have hn : a < b := by omega
      simp [step, f0, f1, f2, e1, e2, e3, decode, hS, c0v_pop, val2int, bind, Except.bind,
        pure, Except.pure, shl8_or o1 o2 ho2, ht, branchResult, hc, hn]
  · intro a b hS hop
    have f0 := fetch_of_get _ _ _ hop (by norm_num)
    by_cases hc : a < b
    · have hn : ¬ b ≤ a := by omega
      simp [step, f0, f1, f2, e1, e2, e3, decode, hS, c0v_pop, val2int, bind, Except.bind,
        pure, Except.pure, shl8_or o1 o2 ho2, ht, branchResult, hc, hn]
    · have hn : b ≤ a := by omega
      simp [step, f0, f1, f2, e1, e2, e3, decode, hS, c0v_pop, val2int, bind, Except.bind,
        pure, Except.pure, shl8_or o1 o2 ho2, ht, branchResult, hc, hn]

/-- C9 at IF_ICMPLT with `a = 5` on top of `b = 3`: `3 < 5`, the branch is taken. -/
theorem C9_conditional_branch_polarity_witness :
    step noNatives emptyProgram (branchState 0xA1 0 10 [c0_value.int 5, c0_value.int 3])
      = .ok { branchState 0xA1 0 10 [c0_value.int 5, c0_value.int 3] with S := [], pc := 10 } :=
  (C9_conditional_branch_polarity noNatives emptyProgram
    (branchState 0xA1 0 10 [c0_value.int 5, c0_value.int 3]) 0 10 [] rfl rfl (by decide)
    (by decide) (by decide)).2.2.1 5 3 rfl rfl

/-- C10, as the code has it: with `x` popped first and `y` second, IF_ICMPLT falls through
when `y ≥ x` and branches when `y < x`; IF_ICMPGE falls through when `y < x` and branches
when `y ≥ x`; IF_ICMPGT falls through when `y ≤ x` and branches when `y > x`; IF_ICMPLE
falls through when `y > x` and branches when `y ≤ x`. -/
theorem C10_comparison_table_amended (nft : NativeTable) (bc0 : bc0_file) (s : State)
    (o1 o2 : Nat) (rest : List c0_value) (x y : Int)
    (h1 : s.P[s.pc + 1]? = some o1) (h2 : s.P[s.pc + 2]? = some o2)
    (ho1 : o1 < 256) (ho2 : o2 < 256) (hlen : s.P.length < 18446744073709551616)
    (hS : s.S = c0_value.int x :: c0_value.int y :: rest) :
    (s.P[s.pc]? = some 0xA1 →
      (y ≥ x → step nft bc0 s = .ok (branchResult s rest false o1 o2)) ∧
      (y < x → step nft bc0 s = .ok (branchResult s rest true o1 o2))) ∧
    (s.P[s.pc]? = some 0xA2 →
      (y < x → step nft bc0 s = .ok (branchResult s rest false o1 o2)) ∧
      (y ≥ x → step nft bc0 s = .ok (branchResult s rest true o1 o2))) ∧
    (s.P[s.pc]? = some 0xA3 →
      (y ≤ x → step nft bc0 s = .ok (branchResult s rest false o1 o2)) ∧
      (y > x → step nft bc0 s = .ok (branchResult s rest true o1 o2))) ∧
    (s.P[s.pc]? = some 0xA4 →
      (y > x → step nft bc0 s = .ok (branchResult s rest false o1 o2)) ∧
      (y ≤ x → step nft bc0 s = .ok (branchResult s rest true o1 o2))) := by
  have hl := get_lt_length _ _ _ h2
  have e1 : pcInc s.pc = s.pc + 1 := pcInc_of_lt _ (by omega)
  have e2 : pcInc (s.pc + 1) = s.pc + 2 := pcInc_of_lt _ (by omega)
  have e3 : pcInc (s.pc + 2) = s.pc + 3 := pcInc_of_lt _ (by omega)
  have f1 := fetch_of_get _ _ _ h1 ho1
  have f2 := fetch_of_get _ _ _ h2 ho2
  have ht := pcAdd_unsigned s.pc o1 o2
  refine ⟨fun hop => ?_, fun hop => ?_, fun hop => ?_, fun hop => ?_⟩ <;>
    have f0 := fetch_of_get _ _ _ hop (by norm_num)
  · constructor <;> intro hc
    · have hn : x ≤ y := by omega
      simp [step, f0, f1, f2, e1, e2, e3, decode, hS, c0v_pop, val2int, bind, Except.bind,
        pure, Except.pure, shl8_or o1 o2 ho2, ht, branchResult, hn]
    · have hn : ¬ x ≤ y := by omega
      simp [step, f0, f1, f2, e1, e2, e3, decode, hS, c0v_pop, val2int, bind, Except.bind,
        pure, Except.pure, shl8_or o1 o2 ho2, ht, branchResult, hn, hc]
  · constructor <;> intro hc
    · have hn : ¬ x ≤ y := by omega
      simp [step, f0, f1, f2, e1, e2, e3, decode, hS, c0v_pop, val2int, bind, Except.bind,
        pure, Except.pure, shl8_or o1 o2 ho2, ht, branchResult, hn, hc]
    · have hn : x ≤ y := by omega
      simp [step, f0, f1, f2, e1, e2, e3, decode, hS, c0v_pop, val2int, bind, Except.bind,
        pure, Except.pure, shl8_or o1 o2 ho2, ht, branchResult, hn]
  · constructor <;> intro hc
    · have hn : ¬ x < y := by omega
      simp [step, f0, f1, f2, e1, e2, e3, decode, hS, c0v_pop, val2int, bind, Except.bind,
        pure, Except.pure, shl8_or o1 o2 ho2, ht, branchResult, hn, hc]
    · have hn : x < y := by omega
      simp [step, f0, f1, f2, e1, e2, e3, decode, hS, c0v_pop, val2int, bind, Except.bind,
        pure, Except.pure, shl8_or o1 o2 ho2, ht, branchResult, hn]
  · constructor <;> intro hc
    · have hn : x < y := by omega
      simp [step, f0, f1, f2, e1, e2, e3, decode, hS, c0v_pop, val2int, bind, Except.bind,
        pure, Except.pure, shl8_or o1 o2 ho2, ht, branchResult, hn]
    · have hn : ¬ x < y := by omega
      simp [step, f0, f1, f2, e1, e2, e3, decode, hS, c0v_pop, val2int, bind, Except.bind,
        pure, Except.pure, shl8_or o1 o2 ho2, ht, branchResult, hn, hc]

/-- C10, amended, at IF_ICMPLT with `x = y = 0`: the instruction falls through to
position 3. -/
theorem C10_comparison_table_amended_witness :
    step noNatives emptyProgram (branchState 0xA1 0 10 [c0_value.int 0, c0_value.int 0])
      = .ok { branchState 0xA1 0 10 [c0_value.int 0, c0_value.int 0] with S := [], pc := 3 } :=
  ((C10_comparison_table_amended noNatives emptyProgram
    (branchState 0xA1 0 10 [c0_value.int 0, c0_value.int 0]) 0 10 [] 0 0 rfl rfl (by decide)
    (by decide) (by decide) rfl).1 rfl).1 (by decide)

/-- C10 as stated fails at `x = y = 0` in each of its four rows: the table has IF_ICMPLT
and IF_ICMPGT branch there (`y ≤ x`, `y ≥ x`) while the code falls through, and it has
IF_ICMPGE and IF_ICMPLE fall through there (`y ≤ x`, `y ≥ x`) while the code branches. -/
theorem C10_comparison_table_counterexample :
    step noNatives emptyProgram (branchState 0xA1 0 10 [c0_value.int 0, c0_value.int 0])
      ≠ .ok (branchResult (branchState 0xA1 0 10 [c0_value.int 0, c0_value.int 0]) []
              (decide ((0 : Int) ≤ 0)) 0 10) ∧
    step noNatives emptyProgram (branchState 0xA2 0 10 [c0_value.int 0, c0_value.int 0])
      ≠ .ok (branchResult (branchState 0xA2 0 10 [c0_value.int 0, c0_value.int 0]) []
              (!decide ((0 : Int) ≤ 0)) 0 10) ∧
    step noNatives emptyProgram (branchState 0xA3 0 10 [c0_value.int 0, c0_value.int 0])
      ≠ .ok (branchResult (branchState 0xA3 0 10 [c0_value.int 0, c0_value.int 0]) []
              (decide ((0 : Int) ≥ 0)) 0 10) ∧
    step noNatives emptyProgram (branchState 0xA4 0 10 [c0_value.int 0, c0_value.int 0])
      ≠ .ok (branchResult (branchState 0xA4 0 10 [c0_value.int 0, c0_value.int 0]) []
              (!decide ((0 : Int) ≥ 0)) 0 10) := by
  decide

/-- C7 at a backward offset: each conditional branch at position 10 with operand bytes
`FF F6` (signed offset `-10`), when taken, sets `pc` to `65536 = 10 + 65526` and not to
`0 = 10 - 10`: the operand bytes are combined without the `(int16_t)` cast that GOTO
has, and GOTO on the same bytes goes to `0`. -/
theorem C7_conditional_branch_backward_offset :
    branchOffset 0xFF 0xF6 = -10 ∧
    step noNatives emptyProgram (backwardBranchState 0x9F [c0_value.int 1, c0_value.int 1])
      = .ok { backwardBranchState 0x9F [] with pc := 65536 } ∧
    step noNatives emptyProgram (backwardBranchState 0xA0 [c0_value.int 1, c0_value.int 2])
      = .ok { backwardBranchState 0xA0 [] with pc := 65536 } ∧
    step noNatives emptyProgram (backwardBranchState 0xA1 [c0_value.int 2, c0_value.int 1])
      = .ok { backwardBranchState 0xA1 [] with pc := 65536 } ∧
    step noNatives emptyProgram (backwardBranchState 0xA2 [c0_value.int 1, c0_value.int 1])
      = .ok { backwardBranchState 0xA2 [] with pc := 65536 } ∧
    step noNatives emptyProgram (backwardBranchState 0xA3 [c0_value.int 1, c0_value.int 2])
      = .ok { backwardBranchState 0xA3 [] with pc := 65536 } ∧
    step noNatives emptyProgram (backwardBranchState 0xA4 [c0_value.int 1, c0_value.int 1])
      = .ok { backwardBranchState 0xA4 [] with pc := 65536 } ∧
    step noNatives emptyProgram (backwardBranchState 0xA7 [])
      = .ok { backwardBranchState 0xA7 [] with pc := 0 } := by
  decide

theorem toU32_ofNat (n : Nat) (h : n < 4294967296) : toU32 (n : Int) = n := by
  have := toU32_cast (n : Int)
  omega

theorem c_or_toI16 (o1 o2 : Nat) (h1 : o1 < 256) (h2 : o2 < 256) :
    c_or (toI16 (o1 <<< 8)) (o2 : Int) = branchOffset o1 o2 := by
  have hb : o2 < 2 ^ 8 := by simpa using h2
  unfold c_or
  rw [toU32_ofNat o2 (by omega), Nat.shiftLeft_eq]
  by_cases hs : o1 < 128
  · have e : toI16 (o1 * 2 ^ 8) = ((2 ^ 8 * o1 : Nat) : Int) := by
      unfold toI16
      rw [if_pos (by omega)]
      congr 1
      omega
    rw [e, toU32_ofNat _ (by omega), ← Nat.mul_add_lt_is_or hb]
    unfold toI32 branchOffset
    rw [if_pos (by omega), if_pos (by omega)]
    congr 1
    omega
  · have e : toU32 (toI16 (o1 * 2 ^ 8)) = 2 ^ 8 * (16776960 + o1) := by
      have hc := toU32_cast (toI16 (o1 * 2 ^ 8))
      unfold toI16 at hc ⊢
      rw [if_neg (by omega)] at hc ⊢
      omega
    rw [e, ← Nat.mul_add_lt_is_or hb]
    unfold toI32 branchOffset
    rw [if_neg (by omega), if_neg (by omega)]
    omega

/-- C8: GOTO at position `p` with operand bytes `(o1, o2)` sets `pc` to `p + s`, `s` the signed
16-bit big-endian value of the bytes, for negative `s` (with `p + s ≥ 0`) as for
non-negative `s`, and changes nothing else. -/
theorem C8_goto_signed_offset (nft : NativeTable) (bc0 : bc0_file) (s : State) (o1 o2 : Nat)
    (hop : s.P[s.pc]? = some 0xA7)
    (h1 : s.P[s.pc + 1]? = some o1) (h2 : s.P[s.pc + 2]? = some o2)
    (ho1 : o1 < 256) (ho2 : o2 < 256) (hlen : s.P.length < 18446744073709551616)
    (hlo : 0 ≤ (s.pc : Int) + branchOffset o1 o2)
    (hhi : (s.pc : Int) + branchOffset o1 o2 < 18446744073709551616) :
    ∃ s1, step nft bc0 s = .ok s1 ∧ (s1.pc : Int) = (s.pc : Int) + branchOffset o1 o2 ∧
      s1.S = s.S ∧ s1.V = s.V ∧ s1.callStack = s.callStack ∧ s1.P = s.P ∧ s1.M = s.M := by
  have hl := get_lt_length _ _ _ h2
  have e1 : pcInc s.pc = s.pc + 1 := pcInc_of_lt _ (by omega)
  have e2 : pcInc (s.pc + 1) = s.pc + 2 := pcInc_of_lt _ (by omega)
  have f0 := fetch_of_get _ _ _ hop (by norm_num)
  have f1 := fetch_of_get _ _ _ h1 ho1
  have f2 := fetch_of_get _ _ _ h2 ho2
  refine ⟨{ s with pc := pcAdd (s.pc + 2) (branchOffset o1 o2 - 2) }, ?_, ?_, rfl, rfl, rfl,
    rfl, rfl⟩
  · simp [step, f0, f1, f2, e1, e2, decode, bind, Except.bind, pure, Except.pure,
      c_or_toI16 o1 o2 ho1 ho2]
  · show ((pcAdd (s.pc + 2) (branchOffset o1 o2 - 2) : Nat) : Int) = _
    unfold pcAdd SIZE_MOD
    generalize branchOffset o1 o2 = d at *
    omega

/-- C8 at a backward jump: GOTO at position 10 with operand bytes `FF F6` (offset `-10`)
goes to position 0. -/
theorem C8_goto_signed_offset_witness :
    ∃ s1, step noNatives emptyProgram (backwardBranchState 0xA7 []) = .ok s1 ∧
      (s1.pc : Int) = ((10 : Nat) : Int) + (-10) ∧
      s1.S = [] ∧ s1.V = [] ∧ s1.callStack = [] ∧
      s1.P = List.replicate 10 0 ++ [0xA7, 0xFF, 0xF6] ∧ s1.M = [] :=
  C8_goto_signed_offset noNatives emptyProgram (backwardBranchState 0xA7 []) 0xFF 0xF6 rfl rfl
    rfl (by decide) (by decide) (by decide) (by decide) (by decide)

/-! ## Calls -/

theorem drop_set_self (V : List c0_value) (i : Nat) (v : c0_value) (h : i < V.length) :
    (V.set i v).drop i = v :: V.drop (i + 1) := by
  induction V generalizing i with
  | nil => simp at h
  | cons x xs ih =>
    cases i with
    | zero => simp
    | succ j =>
      simp only [List.set_cons_succ, List.drop_succ_cons]
      exact ih j (by simpa using h)

theorem popArgs_eq (i : Nat) (V S : List c0_value) (hV : i ≤ V.length) (hS : i ≤ S.length) :
    popArgs i V S = .ok ((S.take i).reverse ++ V.drop i, S.drop i) := by
  induction i generalizing V S with
  | zero => simp [popArgs]
  | succ i ih =>
    cases S with
    | nil => simp at hS
    | cons v S1 =>
      have hi : i < V.length := hV
      simp only [popArgs, c0v_pop, hi, if_true]
      rw [ih (V.set i v) S1 (by simp; omega) (by simpa using hS), drop_set_self V i v hi]
      simp

/-- INVOKESTATIC in closed form: the callee starts at `pc = 0` on an empty stack with the
popped arguments, in push order, followed by zeros as locals; the caller is suspended at
`pc + 3` with the arguments removed from its stack. -/
theorem step_invokestatic (nft : NativeTable) (bc0 : bc0_file) (s : State)
    (c1 c2 : Nat) (f : function_info)
    (hop : s.P[s.pc]? = some 0xB8)
    (h1 : s.P[s.pc + 1]? = some c1) (h2 : s.P[s.pc + 2]? = some c2)
    (hc1 : c1 < 256) (hc2 : c2 < 256) (hlen : s.P.length < 18446744073709551616)
    (hf : bc0.function_pool[256 * c1 + c2]? = some f)
    (hnm : f.num_args ≤ f.num_vars) (hn : f.num_args < 65536) (hm : f.num_vars < 4294967296)
    (hstk : f.num_args ≤ s.S.length) :
    step nft bc0 s = .ok
      { pc := 0, P := f.code, S := [],
        V := (s.S.take f.num_args).reverse
              ++ List.replicate (f.num_vars - f.num_args) (c0_value.int 0),
        callStack := { pc := s.pc + 3, S := s.S.drop f.num_args, P := s.P, V := s.V }
                      :: s.callStack,
        M := s.M } := by
  have hl := get_lt_length _ _ _ h2
  have e1 : pcInc s.pc = s.pc + 1 := pcInc_of_lt _ (by omega)
  have e2 : pcInc (s.pc + 1) = s.pc + 2 := pcInc_of_lt _ (by omega)
  have e3 : pcInc (s.pc + 2) = s.pc + 3 := pcInc_of_lt _ (by omega)
  have f0 := fetch_of_get _ _ _ hop (by norm_num)
  have f1 := fetch_of_get _ _ _ h1 hc1
  have f2 := fetch_of_get _ _ _ h2 hc2
  have hp := popArgs_eq f.num_args (List.replicate f.num_vars (c0_value.int 0)) s.S
    (by simpa using hnm) hstk
  simp [step, f0, f1, f2, e1, e2, e3, decode, bind, Except.bind, pure, Except.pure,
    shl8_or c1 c2 hc2, hf, Nat.mod_eq_of_lt hn, Nat.mod_eq_of_lt hm, hp]

/-- C6: INVOKESTATIC at position `p` of function-pool entry `f` (16-bit big-endian index),
with `n = num_args ≤ m = num_vars` and at least `n` values on the stack, makes the active
frame `pc = 0`, `f.code`, an empty stack and `m` locals in which `locals[n-1-i]` is the
`i`-th value popped and `locals[n..m-1]` are zero, and pushes one frame that holds the
caller's code and locals, `pc = p + 3` and the caller's stack without those `n` values. -/
theorem C6_invokestatic_frame (nft : NativeTable) (bc0 : bc0_file) (s : State)
    (c1 c2 : Nat) (f : function_info)
    (hop : s.P[s.pc]? = some 0xB8)
    (h1 : s.P[s.pc + 1]? = some c1) (h2 : s.P[s.pc + 2]? = some c2)
    (hc1 : c1 < 256) (hc2 : c2 < 256) (hlen : s.P.length < 18446744073709551616)
    (hf : bc0.function_pool[256 * c1 + c2]? = some f)
    (hnm : f.num_args ≤ f.num_vars) (hn : f.num_args < 65536) (hm : f.num_vars < 4294967296)
    (hstk : f.num_args ≤ s.S.length) :
    ∃ V : List c0_value,
      step nft bc0 s = .ok
        { pc := 0, P := f.code, S := [], V := V,
          callStack := { pc := s.pc + 3, S := s.S.drop f.num_args, P := s.P, V := s.V }
                        :: s.callStack,
          M := s.M } ∧
      V.length = f.num_vars ∧
      (∀ i, i < f.num_args → V[f.num_args - 1 - i]? = s.S[i]?) ∧
      (∀ j, f.num_args ≤ j → j < f.num_vars → V[j]? = some (c0_value.int 0)) := by
  refine ⟨(s.S.take f.num_args).reverse ++ List.replicate (f.num_vars - f.num_args)
    (c0_value.int 0), ?_, ?_, ?_, ?_⟩
  · exact step_invokestatic nft bc0 s c1 c2 f hop h1 h2 hc1 hc2 hlen hf hnm hn hm hstk
  · simp
    omega
  · intro i hi
    rw [List.getElem?_append_left (by simp; omega)]
    rw [List.getElem?_reverse (by simp; omega)]
    simp
    have : min f.num_args s.S.length = f.num_args := by omega
    rw [this]
    have : f.num_args - 1 - (f.num_args - 1 - i) = i := by omega
    rw [this, List.getElem?_take]
    simp [hi]
  · intro j hj1 hj2
    rw [List.getElem?_append_right (by simp; omega)]
    simp only [List.length_reverse, List.length_take]
    rw [List.getElem?_replicate, if_pos (by omega)]

set_option maxRecDepth 100000 in
theorem decode_return_bounded :
    ∀ op, op < 256 → decode op = some Opcode.RETURN → op = 0xB0 := by
  decide

theorem fetch_lt (P : List Nat) (pc op : Nat) (h : fetch P pc = .ok op) : op < 256 := by
  unfold fetch at h
  split at h
  · cases h
    exact Nat.mod_lt _ (by norm_num)
  · cases h

/-- Effect of one step on the call stack: it is left alone, or one frame is pushed, or
(at a RETURN on a stack holding just the return value) the top frame is popped and made
the active frame, with the return value pushed on its operand stack. -/
theorem step_callStack (nft : NativeTable) (bc0 : bc0_file) (t t1 : State)
    (h : step nft bc0 t = .ok t1) :
    t1.callStack = t.callStack ∨
    (∃ fr, t1.callStack = fr :: t.callStack) ∨
    (∃ fr r, t.callStack = fr :: t1.callStack ∧ t.S = [c0_value.int r] ∧
      fetch t.P t.pc = .ok 0xB0 ∧
      t1.S = c0_value.int r :: fr.S ∧ t1.pc = fr.pc ∧ t1.P = fr.P ∧ t1.V = fr.V) := by
  unfold step at h
  simp only [bind, Except.bind] at h
  split at h
  · cases h
  · rename_i op hfetch
    split at h
    all_goals (simp only [pure, Except.pure, throw, throwThe, MonadExceptOf.throw] at h)
    all_goals (repeat' (first | (cases h; done) | split at h))
    all_goals (first | (cases h; simp; done) | skip)
    rename_i _ hdec _ v1 hpop _ v hint hne _ tmp cs hcs
    cases h
    refine Or.inr (Or.inr ⟨tmp, v, hcs, ?_, ?_, rfl, rfl, rfl, rfl⟩)
    · cases hS : t.S with
      | nil => rw [hS] at hpop; cases hpop
      | cons x xs =>
        rw [hS] at hpop
        simp only [c0v_pop] at hpop
        cases hpop
        simp only [ne_eq, not_not] at hne
        cases x with
        | int i => simp only [val2int] at hint; cases hint; rw [hne]
        | ptr p => cases hint
    · rw [hfetch, decode_return_bounded op (fetch_lt _ _ _ hfetch) hdec]

theorem steps_succ_inv (nft : NativeTable) (bc0 : bc0_file) (j : Nat) (s u : State)
    (h : steps nft bc0 (j + 1) s = .ok u) :
    ∃ t, steps nft bc0 j s = .ok t ∧ step nft bc0 t = .ok u := by
  induction j generalizing s with
  | zero =>
    refine ⟨s, rfl, ?_⟩
    simp only [steps] at h
    split at h
    · rename_i s1 hs1
      cases h
      exact hs1
    · cases h
  | succ j ih =>
    rw [steps] at h
    split at h
    · rename_i s1 hs1
      obtain ⟨t, ht, htu⟩ := ih s1 h
      refine ⟨t, ?_, htu⟩
      rw [steps, hs1]
      exact ht
    · cases h

/-- While a run stays strictly above the depth `base.length`, the frames `fr :: base` at the
bottom of the call stack are not touched. -/
theorem callStack_bottom (nft : NativeTable) (bc0 : bc0_file) (s1 : State) (fr : frame)
    (base : List frame) (k : Nat) (h1 : s1.callStack = fr :: base)
    (hin : ∀ j, j ≤ k → ∀ u, steps nft bc0 j s1 = .ok u → base.length < u.callStack.length) :
    ∀ j, j ≤ k → ∀ u, steps nft bc0 j s1 = .ok u → ∃ xs, u.callStack = xs ++ fr :: base := by
  intro j
  induction j with
  | zero =>
    intro _ u hu
    cases hu
    exact ⟨[], h1⟩
  | succ j ih =>
    intro hj u hu
    obtain ⟨t, ht, htu⟩ := steps_succ_inv nft bc0 j s1 u hu
    obtain ⟨xs, hxs⟩ := ih (by omega) t ht
    have hd := hin (j + 1) hj u hu
    rcases step_callStack nft bc0 t u htu with h | ⟨fr1, h⟩ | ⟨fr1, r, h, _⟩
    · exact ⟨xs, by rw [h, hxs]⟩
    · exact ⟨fr1 :: xs, by rw [h, hxs]; rfl⟩
    · cases xs with
      | nil =>
        rw [hxs] at h
        simp only [List.nil_append, List.cons.injEq] at h
        rw [← h.2] at hd
        omega
      | cons x xs1 =>
        rw [hxs] at h
        simp only [List.cons_append, List.cons.injEq] at h
        exact ⟨xs1, h.2.symm⟩

/-- C5, as the code has it: when an INVOKESTATIC of `f` at position `p` reaches its matching
RETURN (the first step that brings the call stack back to the caller's depth), the
caller's operand stack is the stack it had before the call with the `num_args` arguments
removed and the return value pushed, its `pc` is `p + 3`, and its code, locals and call
stack are those of before the call. -/
theorem C5_call_return_amended (nft : NativeTable) (bc0 : bc0_file) (s : State)
    (c1 c2 : Nat) (f : function_info)
    (hop : s.P[s.pc]? = some 0xB8)
    (h1 : s.P[s.pc + 1]? = some c1) (h2 : s.P[s.pc + 2]? = some c2)
    (hc1 : c1 < 256) (hc2 : c2 < 256) (hlen : s.P.length < 18446744073709551616)
    (hf : bc0.function_pool[256 * c1 + c2]? = some f)
    (hnm : f.num_args ≤ f.num_vars) (hn : f.num_args < 65536) (hm : f.num_vars < 4294967296)
    (hstk : f.num_args ≤ s.S.length)
    (k : Nat) (t s2 : State)
    (hrun : steps nft bc0 (k + 1) s = .ok t)
    (hin : ∀ j, 1 ≤ j → j ≤ k + 1 → ∀ u, steps nft bc0 j s = .ok u →
      s.callStack.length < u.callStack.length)
    (hret : step nft bc0 t = .ok s2)
    (hback : s2.callStack.length = s.callStack.length) :
    ∃ r : Int, t.S = [c0_value.int r] ∧ fetch t.P t.pc = .ok 0xB0 ∧
      s2.S = c0_value.int r :: s.S.drop f.num_args ∧ s2.pc = s.pc + 3 ∧
      s2.P = s.P ∧ s2.V = s.V ∧ s2.callStack = s.callStack := by
  obtain ⟨s1, hcall, hcs⟩ : ∃ s1, step nft bc0 s = .ok s1 ∧ s1.callStack
      = { pc := s.pc + 3, S := s.S.drop f.num_args, P := s.P, V := s.V } :: s.callStack :=
    ⟨_, step_invokestatic nft bc0 s c1 c2 f hop h1 h2 hc1 hc2 hlen hf hnm hn hm hstk, rfl⟩
  have hshift : ∀ j u, steps nft bc0 j s1 = .ok u → steps nft bc0 (j + 1) s = .ok u := by
    intro j u hu
    rw [steps, hcall]
    exact hu
  have hrun1 : steps nft bc0 k s1 = .ok t := by
    rw [steps, hcall] at hrun
    exact hrun
  obtain ⟨xs, hxs⟩ := callStack_bottom nft bc0 s1 _ s.callStack k hcs
    (fun j hj u hu => hin (j + 1) (by omega) (by omega) u (hshift j u hu)) k (le_refl k) t hrun1
  rcases step_callStack nft bc0 t s2 hret with h | ⟨fr1, h⟩ | ⟨fr1, r, h, hS, hf0, hS2, hpc, hP, hV⟩
  · rw [h, hxs] at hback
    simp at hback
    omega
  · rw [h, hxs] at hback
    simp at hback
    omega
  · rw [hxs] at h
    cases xs with
    | nil =>
      simp only [List.nil_append, List.cons.injEq] at h
      obtain ⟨hfr, hbase⟩ := h
      subst hfr
      exact ⟨r, hS, hf0, hS2, hpc, hP, hV, hbase.symm⟩
    | cons x xs1 =>
      simp only [List.cons_append, List.cons.injEq] at h
      rw [← h.2] at hback
      simp at hback
      omega

/-- C5, amended, on `callProgram`: the call at position 2 with the argument `7` on the
stack returns `9`; back in the caller the stack is `[9]` and `pc = 5`. -/
theorem C5_call_return_amended_witness :
    ∃ r : Int, calleeReturn.S = [c0_value.int r] ∧
      fetch calleeReturn.P calleeReturn.pc = .ok 0xB0 ∧
      callerResumed.S = c0_value.int r :: callState.S.drop 1 ∧
      callerResumed.pc = callState.pc + 3 ∧ callerResumed.P = callState.P ∧
      callerResumed.V = callState.V ∧ callerResumed.callStack = callState.callStack :=
  C5_call_return_amended noNatives callProgram callState 0 1
    { num_args := 1, num_vars := 2, code := [0x10, 9, 0xB0] }
    rfl rfl rfl (by decide) (by decide) (by decide) rfl (by decide) (by decide) (by decide)
    (by decide) 1 calleeReturn callerResumed (by decide)
    (by
      intro j hj1 hj2 u hu
      have hj : j = 1 ∨ j = 2 := by omega
      rcases hj with rfl | rfl
      · have e : steps noNatives callProgram 1 callState = .ok calleeEntry := by decide
        rw [e] at hu
        cases hu
        decide
      · have e : steps noNatives callProgram 2 callState = .ok calleeReturn := by decide
        rw [e] at hu
        cases hu
        decide)
    (by decide) (by decide)

/-- C5 as stated fails on `callProgram`: the INVOKESTATIC at position 2 runs with the stack
`[7]`; after the matching RETURN (three steps later) the caller is back at `pc = 5` with
the stack `[9]`, which is not the stack `[7]` of before the call with a value pushed. -/
theorem C5_call_return_counterexample :
    fetch callState.P callState.pc = .ok 0xB8 ∧
    steps noNatives callProgram 2 callState = .ok calleeReturn ∧
    fetch calleeReturn.P calleeReturn.pc = .ok 0xB0 ∧
    step noNatives callProgram calleeReturn = .ok callerResumed ∧
    callerResumed.callStack = callState.callStack ∧
    ¬ ∃ v, callerResumed.S = v :: callState.S := by
  refine ⟨by decide, by decide, by decide, by decide, by decide, ?_⟩
  rintro ⟨v, hv⟩
  cases hv

/-- C6 on `callProgram`: the call at position 2 with `7` on the stack enters the callee with
locals `[7, 0]` and suspends the caller at `pc = 5` with an empty stack. -/
theorem C6_invokestatic_frame_witness :
    step noNatives callProgram callState = .ok calleeEntry := by
  obtain ⟨V, hstep, hlen, hargs, hzero⟩ :=
    C6_invokestatic_frame noNatives callProgram callState 0 1
      { num_args := 1, num_vars := 2, code := [0x10, 9, 0xB0] }
      rfl rfl rfl (by decide) (by decide) (by decide) rfl (by decide) (by decide) (by decide)
      (by decide)
  have h0 := hargs 0 (by decide)
  have h1 := hzero 1 (by decide) (by decide)
  rcases V with _ | ⟨a, _ | ⟨b, _ | ⟨c, rest⟩⟩⟩
  · simp at hlen
  · simp at hlen
  · simp [callState] at h0 h1
    rw [hstep, h0, h1]
    rfl
  · simp at hlen

/-! ## Invalid opcodes, ASSERT, start and end of execution -/

set_option maxRecDepth 100000 in
theorem decode_unsupported :
    ∀ b, b < 256 → b ∉ supportedOpcodes →
      decode b = none ∨ decode b = some .CHECKTAG ∨ decode b = some .HASTAG ∨
      decode b = some .ADDTAG ∨ decode b = some .ADDROF_STATIC ∨
      decode b = some .ADDROF_NATIVE ∨ decode b = some .INVOKEDYNAMIC := by
  decide

theorem step_invalid (nft : NativeTable) (bc0 : bc0_file) (s : State) (op : Nat)
    (hf : fetch s.P s.pc = .ok op)
    (hd : decode op = none ∨ decode op = some .CHECKTAG ∨ decode op = some .HASTAG ∨
      decode op = some .ADDTAG ∨ decode op = some .ADDROF_STATIC ∨
      decode op = some .ADDROF_NATIVE ∨ decode op = some .INVOKEDYNAMIC) :
    step nft bc0 s = .error (.invalid_opcode op) := by
  rcases hd with h | h | h | h | h | h | h <;>
    simp [step, hf, h, bind, Except.bind, throw, throwThe, MonadExceptOf.throw]

/-- C18: a step at an opcode byte outside the supported instruction set, and a step at
each of CHECKTAG (C0), HASTAG (C1), ADDTAG (C2), ADDROF_STATIC (16), ADDROF_NATIVE (17)
and INVOKEDYNAMIC (B6), ends execution with the invalid-opcode error: there is no next
state, no result, and the error is none of the arithmetic, memory, assertion and user
errors. -/
theorem C18_invalid_opcode (nft : NativeTable) (bc0 : bc0_file) (s : State) (b : Nat)
    (hb : b < 256) (hop : s.P[s.pc]? = some b) (hns : b ∉ supportedOpcodes) :
    step nft bc0 s = .error (.invalid_opcode b) ∧
    (∀ s1, step nft bc0 s ≠ .ok s1) ∧
    (∀ r, step nft bc0 s ≠ .error (.returned r)) ∧
    (∀ m, step nft bc0 s ≠ .error (.arith_error m)) ∧
    (∀ m, step nft bc0 s ≠ .error (.memory_error m)) ∧
    (∀ m, step nft bc0 s ≠ .error (.assertion_failure m)) ∧
    (∀ m, step nft bc0 s ≠ .error (.user_error m)) ∧
    (∀ c, c ∈ [0xC0, 0xC1, 0xC2, 0x16, 0x17, 0xB6] → c ∉ supportedOpcodes) := by
  have h := step_invalid nft bc0 s b (fetch_of_get _ _ _ hop hb)
    (decode_unsupported b hb hns)
  refine ⟨h, ?_, ?_, ?_, ?_, ?_, ?_, by decide⟩ <;> intro x hx <;> rw [h] at hx <;> cases hx

/-- C18 at the byte `C0` (CHECKTAG). -/
theorem C18_invalid_opcode_witness :
    step noNatives emptyProgram (stateAt 0xC0 []) = .error (.invalid_opcode 0xC0) :=
  (C18_invalid_opcode noNatives emptyProgram (stateAt 0xC0 []) 0xC0 (by decide) rfl
    (by decide)).1

/-- C14: ASSERT pops a message (top) and an integer condition (second).  With condition 0
and message pointer `p` it raises the assertion failure carrying `p`; with a nonzero condition
it raises nothing and the next state is the prior state without those two values and
with `pc` advanced by 1. -/
theorem C14_assert (nft : NativeTable) (bc0 : bc0_file) (s : State) (msg : c0_value) (c : Int)
    (rest : List c0_value) (hop : s.P[s.pc]? = some 0xCF)
    (hlen : s.P.length < 18446744073709551616)
    (hS : s.S = msg :: c0_value.int c :: rest) :
    (c = 0 → ∀ p, msg = c0_value.ptr p → step nft bc0 s = .error (.assertion_failure p)) ∧
    (c ≠ 0 → step nft bc0 s = .ok { s with pc := s.pc + 1, S := rest }) := by
  have hl := get_lt_length _ _ _ hop
  have e1 : pcInc s.pc = s.pc + 1 := pcInc_of_lt _ (by omega)
  have f0 := fetch_of_get _ _ _ hop (by norm_num)
  constructor
  · intro hc p hp
    simp [step, f0, decode, hS, hc, hp, c0v_pop, val2int, val2ptr, bind, Except.bind, pure,
      Except.pure, throw, throwThe, MonadExceptOf.throw]
  · intro hc
    simp [step, f0, decode, hS, hc, e1, c0v_pop, val2int, bind, Except.bind, pure,
      Except.pure, throw, throwThe, MonadExceptOf.throw]

/-- C14 on the stack `p = 17 :: 0` and on the stack `p = 17 :: 1`: the first raises the
assertion failure with message 17, the second continues at `pc = 1` on the empty stack. -/
theorem C14_assert_witness :
    step noNatives emptyProgram (stateAt 0xCF [c0_value.ptr 17, c0_value.int 0])
      = .error (.assertion_failure 17) ∧
    step noNatives emptyProgram (stateAt 0xCF [c0_value.ptr 17, c0_value.int 1])
      = .ok { stateAt 0xCF [c0_value.ptr 17, c0_value.int 1] with pc := 1, S := [] } :=
  ⟨(C14_assert noNatives emptyProgram (stateAt 0xCF [c0_value.ptr 17, c0_value.int 0])
      (c0_value.ptr 17) 0 [] rfl (by decide) rfl).1 rfl 17 rfl,
   (C14_assert noNatives emptyProgram (stateAt 0xCF [c0_value.ptr 17, c0_value.int 1])
      (c0_value.ptr 17) 1 [] rfl (by decide) rfl).2 (by decide)⟩

theorem run_add (nft : NativeTable) (bc0 : bc0_file) (k fuel : Nat) (s : State) (h : Halt)
    (hr : run nft bc0 fuel s = some h) : run nft bc0 (fuel + k) s = some h := by
  induction fuel generalizing s with
  | zero => simp [run] at hr
  | succ n ih =>
    have e : n + 1 + k = (n + k) + 1 := by omega
    rw [e]
    rw [run] at hr ⊢
    split at hr
    · rename_i s1 hs1
      exact ih s1 hr
    · exact hr

theorem execute_add (nft : NativeTable) (bc0 : bc0_file) (k fuel : Nat) (h : Halt)
    (hr : execute nft bc0 fuel = some h) : execute nft bc0 (fuel + k) = some h := by
  unfold execute at hr ⊢
  split at hr
  · exact hr
  · rename_i s hs
    exact run_add nft bc0 k fuel s h hr

/-- C15: execution starts in function 0 at `pc = 0` on an empty operand stack and an empty
call stack; RETURN on an empty call stack ends the program normally with the popped
integer; `{ BIPUSH 5; BIPUSH 3; IADD; RETURN }` yields 8; BIPUSH of the byte `v` pushes
`v` if `v < 128` and `v - 256` otherwise. -/
theorem C15_start_return_bipush (nft : NativeTable) (bc0 : bc0_file) :
    (∀ f, bc0.function_pool[0]? = some f →
      ∃ s0, initial bc0 = .ok s0 ∧ s0.P = f.code ∧ s0.pc = 0 ∧ s0.S = [] ∧
        s0.callStack = [] ∧ ∀ fuel, execute nft bc0 fuel = run nft bc0 fuel s0) ∧
    (∀ (s : State) (r : Int), s.P[s.pc]? = some 0xB0 → s.S = [c0_value.int r] → s.callStack = [] →
      step nft bc0 s = .error (.returned r) ∧
      ∀ fuel, run nft bc0 (fuel + 1) s = some (.returned r)) ∧
    (∀ fuel, execute nft addProgram (fuel + 4) = some (.returned 8)) ∧
    (∀ (s : State) (v : Nat), s.P[s.pc]? = some 0x10 → s.P[s.pc + 1]? = some v → v < 256 →
      s.P.length < 18446744073709551616 →
      step nft bc0 s = .ok { s with pc := s.pc + 2,
                                    S := c0_value.int (if v < 128 then (v : Int)
                                                       else (v : Int) - 256) :: s.S }) := by
  refine ⟨?_, ?_, ?_, ?_⟩
  · intro f hf
    refine ⟨{ S := [], P := f.code, pc := 0,
              V := List.replicate f.num_vars (c0_value.int 0),
              callStack := [], M := bc0.string_pool },
      by simp only [initial, hf], rfl, rfl, rfl, rfl, ?_⟩
    intro fuel
    simp only [execute, initial, hf]
  · intro s r hop hS hcs
    have f0 := fetch_of_get _ _ _ hop (by norm_num)
    have hstep : step nft bc0 s = .error (.returned r) := by
      simp [step, f0, decode, hS, hcs, c0v_pop, val2int, bind, Except.bind, pure,
        Except.pure, throw, throwThe, MonadExceptOf.throw]
    refine ⟨hstep, fun fuel => ?_⟩
    rw [run, hstep]
  · intro fuel
    have h := execute_add nft addProgram fuel 4 (.returned 8) rfl
    rwa [Nat.add_comm] at h
  · intro s v hop h1 hv hlen
    have hl := get_lt_length _ _ _ h1
    have e1 : pcInc s.pc = s.pc + 1 := pcInc_of_lt _ (by omega)
    have e2 : pcInc (s.pc + 1) = s.pc + 2 := pcInc_of_lt _ (by omega)
    have f0 := fetch_of_get _ _ _ hop (by norm_num)
    have f1 := fetch_of_get _ _ _ h1 hv
    have e8 : toI8 v = if v < 128 then (v : Int) else (v : Int) - 256 := by
      unfold toI8
      rw [Nat.mod_eq_of_lt hv]
    simp only [step, f0, f1, decode, e1, e2, e8, c0v_push, int2val, bind, Except.bind, pure,
      Except.pure]
    simp

/-- C15 on `addProgram`: the initial state is function 0 at `pc = 0`, and four iterations
yield 8. -/
theorem C15_start_return_bipush_witness :
    (∃ s0, initial addProgram = .ok s0 ∧ s0.P = [0x10, 5, 0x10, 3, 0x60, 0xB0] ∧ s0.pc = 0 ∧
      s0.S = [] ∧ s0.callStack = [] ∧
      ∀ fuel, execute noNatives addProgram fuel = run noNatives addProgram fuel s0) ∧
    execute noNatives addProgram 4 = some (.returned 8) :=
  ⟨(C15_start_return_bipush noNatives addProgram).1 _ rfl,
   (C15_start_return_bipush noNatives addProgram).2.2.1 0⟩

/-! ## Memory instructions -/

/-- C12, on the code: `BIPUSH 3; NEWARRAY 4; BIPUSH 5; AADDS` as function 0 ends with the
invalid-opcode error on the byte `05`, not with a memory error: NEWARRAY at position 2
leaves `pc = 5`, one past the BIPUSH at position 4.  With a padding byte after NEWARRAY
the same instructions end with the out-of-bounds memory error. -/
theorem C12_newarray_aadds_end_to_end (nft : NativeTable) (tail : List Nat) (fuel : Nat) :
    execute nft (arrayProgram tail) (fuel + 3) = some (.invalid_opcode 0x05) ∧
    execute nft paddedArrayProgram (fuel + 4)
      = some (.memory_error "index out of bounds") := by
  constructor
  · have h := execute_add nft (arrayProgram tail) fuel 3 (.invalid_opcode 0x05) rfl
    rwa [Nat.add_comm] at h
  · have h := execute_add nft paddedArrayProgram fuel 4
      (.memory_error "index out of bounds") rfl
    rwa [Nat.add_comm] at h

theorem storeBytes_ok (M : List Nat) (a : Nat) (bs : List Nat) (ha : a ≠ 0)
    (hin : a - 1 + bs.length ≤ M.length) :
    storeBytes M a bs = .ok (M.take (a - 1) ++ bs ++ M.drop (a - 1 + bs.length)) := by
  have : ¬ (a = 0 ∨ M.length < a - 1 + bs.length) := by omega
  simp [storeBytes, this]

theorem splice_length (M bs : List Nat) (n : Nat) (hin : n + bs.length ≤ M.length) :
    (M.take n ++ bs ++ M.drop (n + bs.length)).length = M.length := by
  simp
  omega

theorem splice_get_inside (M bs : List Nat) (n k : Nat) (hin : n + bs.length ≤ M.length)
    (hk : k < bs.length) :
    (M.take n ++ bs ++ M.drop (n + bs.length))[n + k]? = bs[k]? := by
  rw [List.append_assoc, List.getElem?_append_right (by simp)]
  simp only [List.length_take]
  have e : n + k - min n M.length = k := by omega
  rw [e, List.getElem?_append_left hk]

theorem splice_get_outside (M bs : List Nat) (n q : Nat) (hin : n + bs.length ≤ M.length)
    (hq : q < n ∨ n + bs.length ≤ q) :
    (M.take n ++ bs ++ M.drop (n + bs.length))[q]? = M[q]? := by
  rcases hq with hq | hq
  · rw [List.append_assoc, List.getElem?_append_left (by simp; omega)]
    rw [List.getElem?_take]
    simp [hq]
  · rw [List.getElem?_append_right (by simp; omega)]
    simp only [List.length_append, List.length_take]
    rw [List.getElem?_drop]
    congr 1
    omega

/-- C13: IMLOAD, AMLOAD, CMLOAD, IMSTORE, AMSTORE, CMSTORE and AADDF whose address operand
is the null pointer raise a memory error and have no next state, whatever the heap holds
(no byte of it is read or written); AMSTORE of a null value into a non-null address of
the heap raises no error. -/
theorem C13_null_pointer_memory_error (nft : NativeTable) (bc0 : bc0_file) (s : State)
    (rest : List c0_value) :
    (s.P[s.pc]? = some 0x2E → s.S = c0_value.ptr 0 :: rest →
      step nft bc0 s = .error (.memory_error "Value is NULL")) ∧
    (s.P[s.pc]? = some 0x2F → s.S = c0_value.ptr 0 :: rest →
      step nft bc0 s = .error (.memory_error "value NULL")) ∧
    (s.P[s.pc]? = some 0x34 → s.S = c0_value.ptr 0 :: rest →
      step nft bc0 s = .error (.memory_error "value is NULL")) ∧
    (∀ i : Int, s.P[s.pc]? = some 0x4E → s.S = c0_value.int i :: c0_value.ptr 0 :: rest →
      step nft bc0 s = .error (.memory_error "value is NULL")) ∧
    (∀ v : Nat, s.P[s.pc]? = some 0x4F → s.S = c0_value.ptr v :: c0_value.ptr 0 :: rest →
      step nft bc0 s = .error (.memory_error "value is NULL")) ∧
    (∀ i : Int, s.P[s.pc]? = some 0x55 → s.S = c0_value.int i :: c0_value.ptr 0 :: rest →
      step nft bc0 s = .error (.memory_error "NULL")) ∧
    (∀ b : Nat, s.P[s.pc]? = some 0x62 → s.P[pcInc s.pc]? = some b →
      s.S = c0_value.ptr 0 :: rest →
      step nft bc0 s = .error (.memory_error "NULL")) ∧
    (∀ a : Nat, s.P[s.pc]? = some 0x4F → s.S = c0_value.ptr 0 :: c0_value.ptr a :: rest →
      a ≠ 0 → a - 1 + 8 ≤ s.M.length →
      ∃ M1, step nft bc0 s = .ok { s with pc := pcInc s.pc, S := rest, M := M1 } ∧
        M1.length = s.M.length ∧
        (∀ k, k < 8 → M1[a - 1 + k]? = some 0) ∧
        (∀ q, q < a - 1 ∨ a - 1 + 8 ≤ q → M1[q]? = s.M[q]?)) := by
  refine ⟨?_, ?_, ?_, ?_, ?_, ?_, ?_, ?_⟩
  · intro hop hS
    have f0 := fetch_of_get _ _ _ hop (by norm_num)
    simp [step, f0, decode, hS, c0v_pop, val2ptr, bind, Except.bind, throw, throwThe,
      MonadExceptOf.throw]
  · intro hop hS
    have f0 := fetch_of_get _ _ _ hop (by norm_num)
    simp [step, f0, decode, hS, c0v_pop, val2ptr, bind, Except.bind, throw, throwThe,
      MonadExceptOf.throw]
  · intro hop hS
    have f0 := fetch_of_get _ _ _ hop (by norm_num)
    simp [step, f0, decode, hS, c0v_pop, val2ptr, bind, Except.bind, throw, throwThe,
      MonadExceptOf.throw]
  · intro i hop hS
    have f0 := fetch_of_get _ _ _ hop (by norm_num)
    simp [step, f0, decode, hS, c0v_pop, val2ptr, val2int, bind, Except.bind, throw, throwThe,
      MonadExceptOf.throw]
  · intro v hop hS
    have f0 := fetch_of_get _ _ _ hop (by norm_num)
    simp [step, f0, decode, hS, c0v_pop, val2ptr, val2int, bind, Except.bind, throw, throwThe,
      MonadExceptOf.throw]
  · intro i hop hS
    have f0 := fetch_of_get _ _ _ hop (by norm_num)
    simp [step, f0, decode, hS, c0v_pop, val2ptr, val2int, bind, Except.bind, throw, throwThe,
      MonadExceptOf.throw]
  · intro b hop h1 hS
    have f0 := fetch_of_get _ _ _ hop (by norm_num)
    have f1 : fetch s.P (pcInc s.pc) = .ok (b % 256) := by simp [fetch, h1]
    simp [step, f0, f1, decode, hS, c0v_pop, val2ptr, val2int, bind, Except.bind, throw,
      throwThe, MonadExceptOf.throw]
  · intro a hop hS ha hin
    have f0 := fetch_of_get _ _ _ hop (by norm_num)
    have hst := storeBytes_ok s.M a (leBytes 8 0) ha hin
    refine ⟨s.M.take (a - 1) ++ leBytes 8 0 ++ s.M.drop (a - 1 + (leBytes 8 0).length),
      ?_, splice_length _ _ _ hin, ?_, ?_⟩
    · simp only [step, f0, decode, hS, c0v_pop, val2ptr, bind, Except.bind, throw, throwThe,
        MonadExceptOf.throw, pure, Except.pure, hst]
      simp [ha]
    · intro k hk
      rw [splice_get_inside s.M (leBytes 8 0) (a - 1) k hin hk]
      interval_cases k <;> rfl
    · intro q hq
      exact splice_get_outside _ _ _ _ hin hq

/-- C13 on an empty heap and on a heap of eight bytes: IMLOAD of the null pointer raises
the memory error although no byte could be read, and AMSTORE of a null value at address
1 goes through. -/
theorem C13_null_pointer_memory_error_witness :
    step noNatives emptyProgram (stateAt 0x2E [c0_value.ptr 0])
      = .error (.memory_error "Value is NULL") ∧
    ∃ M1, step noNatives emptyProgram
        { stateAt 0x4F [c0_value.ptr 0, c0_value.ptr 1] with M := [1, 2, 3, 4, 5, 6, 7, 8] }
      = .ok { stateAt 0x4F [] with pc := 1, M := M1 } ∧ M1.length = 8 :=
  ⟨(C13_null_pointer_memory_error noNatives emptyProgram (stateAt 0x2E [c0_value.ptr 0])
      []).1 rfl rfl,
   let ⟨M1, h, hl, _⟩ := (C13_null_pointer_memory_error noNatives emptyProgram
      { stateAt 0x4F [c0_value.ptr 0, c0_value.ptr 1] with M := [1, 2, 3, 4, 5, 6, 7, 8] }
      []).2.2.2.2.2.2.2 1 rfl rfl (by decide) (by decide)
   ⟨M1, h, hl⟩⟩

theorem c_and_127 (v : Int) : c_and v 0x7F = v % 128 := by
  have h127 : toU32 0x7F = 2 ^ 7 - 1 := by decide
  unfold c_and
  rw [h127, Nat.and_pow_two_sub_one_eq_mod]
  have hc := toU32_cast v
  unfold toI32
  rw [if_pos (by omega)]
  omega

/-- C19: CMSTORE of `v` at a non-null address `p` of the heap writes the byte `v & 0x7F` at
`p` and changes no other byte; CMLOAD from `p` on that heap pushes `v & 0x7F`, which lies in
`[0, 127]` and is `v` exactly when `0 ≤ v ≤ 127`. -/
theorem C19_cmstore_cmload (nft : NativeTable) (bc0 : bc0_file) (s : State) (v : Int)
    (p : Nat) (rest : List c0_value) (hop : s.P[s.pc]? = some 0x55)
    (hS : s.S = c0_value.int v :: c0_value.ptr p :: rest)
    (hp : p ≠ 0) (hin : p ≤ s.M.length) :
    ∃ M1 : List Nat,
      step nft bc0 s = .ok { s with pc := pcInc s.pc, S := rest, M := M1 } ∧
      M1.length = s.M.length ∧
      M1[p - 1]? = some (c_and v 0x7F).toNat ∧
      (∀ q, q ≠ p - 1 → M1[q]? = s.M[q]?) ∧
      (∀ (t : State) (rest2 : List c0_value), t.M = M1 → t.P[t.pc]? = some 0x34 →
        t.S = c0_value.ptr p :: rest2 →
        step nft bc0 t
          = .ok { t with pc := pcInc t.pc, S := c0_value.int (c_and v 0x7F) :: rest2 }) ∧
      c_and v 0x7F = v % 128 ∧ 0 ≤ c_and v 0x7F ∧ c_and v 0x7F ≤ 127 ∧
      (c_and v 0x7F = v ↔ 0 ≤ v ∧ v ≤ 127) := by
  have hand := c_and_127 v
  have hb : toU32 (c_and v 0x7F) % 256 = (c_and v 0x7F).toNat := by
    have hc := toU32_cast (c_and v 0x7F)
    omega
  have hin1 : p - 1 + [toU32 (c_and v 0x7F) % 256].length ≤ s.M.length := by
    simp only [List.length_cons, List.length_nil]
    omega
  have hst := storeBytes_ok s.M p [toU32 (c_and v 0x7F) % 256] hp hin1
  have f0 := fetch_of_get _ _ _ hop (by norm_num)
  have hlenM := splice_length s.M [toU32 (c_and v 0x7F) % 256] (p - 1) hin1
  have hget := splice_get_inside s.M [toU32 (c_and v 0x7F) % 256] (p - 1) 0 hin1 (by simp)
  refine ⟨s.M.take (p - 1) ++ [toU32 (c_and v 0x7F) % 256]
      ++ s.M.drop (p - 1 + [toU32 (c_and v 0x7F) % 256].length),
    ?_, hlenM, ?_, ?_, ?_, hand, by omega, by omega, by omega⟩
  · simp only [step, f0, decode, hS, c0v_pop, val2ptr, val2int, bind, Except.bind, throw,
      throwThe, MonadExceptOf.throw, pure, Except.pure, hst]
    simp [hp]
  · rw [Nat.add_zero] at hget
    rw [hget, ← hb]
    rfl
  · intro q hq
    exact splice_get_outside _ _ _ _ hin1 (by
      simp only [List.length_cons, List.length_nil]
      omega)
  · intro t rest2 hM hopt hSt
    have g0 := fetch_of_get _ _ _ hopt (by norm_num)
    have hld : loadBytes t.M p 1 = .ok [toU32 (c_and v 0x7F) % 256] := by
      have hne : ¬ (p = 0 ∨ t.M.length < p - 1 + 1) := by
        rw [hM, hlenM]
        omega
      simp only [loadBytes, hne, if_false]
      congr 1
      apply List.ext_getElem?
      intro i
      rw [List.getElem?_take]
      by_cases hi : i < 1
      · have hi0 : i = 0 := by omega
        subst hi0
        rw [if_pos (by decide), List.getElem?_drop, hM, hget]
      · rw [if_neg hi]
        symm
        apply List.getElem?_eq_none
        simp only [List.length_cons, List.length_nil]
        omega
    have h8 : toI8 (leValue [toU32 (c_and v 0x7F) % 256]) = c_and v 0x7F := by
      simp only [leValue, hb]
      unfold toI8
      have e1 : ((c_and v 0x7F).toNat % 256 + 256 * 0) % 256 = (c_and v 0x7F).toNat := by omega
      rw [e1, if_pos (by omega)]
      omega
    simp only [step, g0, decode, hSt, c0v_pop, val2ptr, bind, Except.bind, throw,
      throwThe, MonadExceptOf.throw, pure, Except.pure, hld, h8]
    simp [hp, c0v_push, int2val]

/-- C19 on a heap of two bytes: CMSTORE of `200` at address 2 writes `72 = 200 & 0x7F`
there and leaves the byte at address 1 alone. -/
theorem C19_cmstore_cmload_witness :
    step noNatives emptyProgram
        { stateAt 0x55 [c0_value.int 200, c0_value.ptr 2] with M := [9, 9] }
      = .ok { stateAt 0x55 [] with pc := 1, M := [9, 72] } := by
  obtain ⟨M1, hstep, hlen, hat, hout, _, _⟩ :=
    C19_cmstore_cmload noNatives emptyProgram
      { stateAt 0x55 [c0_value.int 200, c0_value.ptr 2] with M := [9, 9] } 200 2 [] rfl rfl
      (by decide) (by decide)
  have h0 := hout 0 (by decide)
  rcases M1 with _ | ⟨a, _ | ⟨b, _ | ⟨c, r⟩⟩⟩
  · simp at hlen
  · simp at hlen
  · simp at h0
    have hb : b = 72 := by
      have : (c_and 200 0x7F).toNat = 72 := by decide
      rw [this] at hat
      simpa using hat
    rw [hstep, h0, hb]
    rfl
  · simp at hlen

theorem step_newarray (nft : NativeTable) (bc0 : bc0_file) (s : State) (size : Nat)
    (count : Int) (rest : List c0_value)
    (hop : s.P[s.pc]? = some 0xBC) (h1 : s.P[s.pc + 1]? = some size) (hsz : size < 256)
    (hpc : s.pc + 3 < 18446744073709551616)
    (hS : s.S = c0_value.int count :: rest) :
    step nft bc0 s = .ok
      { s with pc := s.pc + 3, S := c0_value.ptr (s.M.length + 1) :: rest,
               M := s.M ++ (leBytes 4 (toU32 count) ++ leBytes 4 size
                            ++ leBytes 8 (s.M.length + 17))
                        ++ List.replicate (max (size * toU32 count) 1) 0 } := by
  have e1 : pcInc s.pc = s.pc + 1 := pcInc_of_lt _ (by omega)
  have e3 : (s.pc + 1 + 2) % SIZE_MOD = s.pc + 3 := by
    unfold SIZE_MOD
    omega
  have f0 := fetch_of_get _ _ _ hop (by norm_num)
  have f1 := fetch_of_get _ _ _ h1 hsz
  generalize hK : max (size * toU32 count) 1 = K
  have hst : storeBytes ((s.M ++ List.replicate 16 0) ++ List.replicate K 0) (s.M.length + 1)
      (leBytes 4 (toU32 count) ++ leBytes 4 size ++ leBytes 8 (s.M.length + 16 + 1))
      = .ok (s.M ++ (leBytes 4 (toU32 count) ++ leBytes 4 size
                            ++ leBytes 8 (s.M.length + 17))
                        ++ List.replicate K 0) := by
    have hl : (leBytes 4 (toU32 count) ++ leBytes 4 size
        ++ leBytes 8 (s.M.length + 16 + 1)).length = 16 := by
      simp [leBytes]
    have ht : List.take s.M.length ((s.M ++ List.replicate 16 0) ++ List.replicate K 0)
        = s.M := by
      rw [List.append_assoc]
      exact List.take_left' rfl
    have hd : List.drop (s.M.length + 16)
        ((s.M ++ List.replicate 16 0) ++ List.replicate K 0) = List.replicate K 0 :=
      List.drop_left' (by simp)
    rw [storeBytes_ok _ _ _ (by omega) (by rw [hl]; simp)]
    simp only [Nat.add_sub_cancel, hl, ht, hd, Nat.add_assoc]
  simp only [step, f0, f1, e1, e3, decode, hS, c0v_pop, val2int, c0v_push, ptr2val, xcalloc,
    SIZEOF_C0_ARRAY, bind, Except.bind, pure, Except.pure, List.length_append,
    List.length_replicate, hK]
  have h16 : max 16 1 = 16 := by decide
  simp only [h16, hst]
  rfl

theorem steps_snoc (nft : NativeTable) (bc0 : bc0_file) (n : Nat) (s t u : State)
    (h : steps nft bc0 n s = .ok t) (hu : step nft bc0 t = .ok u) :
    steps nft bc0 (n + 1) s = .ok u := by
  induction n generalizing s with
  | zero =>
    cases h
    rw [steps, hu]
    rfl
  | succ n ih =>
    rw [steps] at h
    split at h
    · rename_i s1 hs1
      rw [steps, hs1]
      exact ih s1 h
    · cases h

theorem bigArray_newarray (nft : NativeTable) (H : List Nat) (N : Nat)
    (hh : ([] : List Nat) ++ (leBytes 4 (toU32 536870913) ++ leBytes 4 8
        ++ leBytes 8 (([] : List Nat).length + 17)) = H)
    (hk : max (8 * toU32 536870913) 1 = N) :
    step nft bigArrayProgram (bigArrayState 3 [c0_value.int 536870913] [])
      = .ok (bigArrayState 6 [c0_value.ptr 1] (H ++ List.replicate N 0)) := by
  have h := step_newarray nft bigArrayProgram (bigArrayState 3 [c0_value.int 536870913] [])
    8 536870913 [] rfl rfl (by decide) (by decide) rfl
  have hM : (bigArrayState 3 [c0_value.int 536870913] []).M = [] := rfl
  rw [hM, hk, hh] at h
  exact h

theorem steps_succ_ok (nft : NativeTable) (bc0 : bc0_file) (n : Nat) (s s1 : State)
    (h : step nft bc0 s = .ok s1) : steps nft bc0 (n + 1) s = steps nft bc0 n s1 := by
  rw [steps, h]

theorem bigArray_run (nft : NativeTable) (M : List Nat)
    (hB : step nft bigArrayProgram (bigArrayState 3 [c0_value.int 536870913] [])
      = .ok (bigArrayState 6 [c0_value.ptr 1] M)) :
    steps nft bigArrayProgram 3 (bigArrayState 0 [] [])
      = .ok (bigArrayState 9 [c0_value.int 536870912, c0_value.ptr 1] M) := by
  have hA : step nft bigArrayProgram (bigArrayState 0 [] [])
      = .ok (bigArrayState 3 [c0_value.int 536870913] []) := rfl
  have hC : step nft bigArrayProgram (bigArrayState 6 [c0_value.ptr 1] M)
      = .ok (bigArrayState 9 [c0_value.int 536870912, c0_value.ptr 1] M) := by
    simp [step, fetch, decode, bigArrayState, bigArrayProgram, pcInc, SIZE_MOD, c0v_push,
      int2val, bind, Except.bind, pure, Except.pure, toI32, toU32]
  rw [steps_succ_ok nft bigArrayProgram 2 _ _ hA, steps_succ_ok nft bigArrayProgram 1 _ _ hB,
    steps_succ_ok nft bigArrayProgram 0 _ _ hC]
  rfl

/-- The AADDS state of `C11_aadds_bounds_witness` is reached by `bigArrayProgram`: from its
initial state three steps (ILDC, NEWARRAY, ILDC) lead to position 9 with the index
`2^29` on top of the array pointer, the heap holding the header and the
`8 * (2^29 + 1) = 4294967304` bytes of the elements. -/
theorem bigArray_reachable (nft : NativeTable) :
    initial bigArrayProgram = .ok (bigArrayState 0 [] []) ∧
    steps nft bigArrayProgram 3 (bigArrayState 0 [] [])
      = .ok (bigArrayState 9 [c0_value.int 536870912, c0_value.ptr 1]
              (bigArrayHeader ++ List.replicate 4294967304 0)) :=
  ⟨rfl, bigArray_run nft _ (bigArray_newarray nft bigArrayHeader 4294967304 (by decide)
    (by decide))⟩

theorem bigArray_header_loads (tail : List Nat) :
    loadBytes (bigArrayHeader ++ tail) 1 4 = .ok [0x01, 0x00, 0x00, 0x20] ∧
    loadBytes (bigArrayHeader ++ tail) (1 + 4) 4 = .ok [8, 0, 0, 0] ∧
    loadBytes (bigArrayHeader ++ tail) (1 + 8) 8 = .ok [17, 0, 0, 0, 0, 0, 0, 0] := by
  simp [loadBytes, bigArrayHeader]

/-- C11, on the code: AADDS on a stack `i :: A :: rest` (index on top), where a non-null `A`
points to an array header in the heap with fields `count`, `elt_size`, `elems`: a memory
error is raised, and there is no next state, exactly when `A` is null or `i < 0` or
`i ≥ count`; otherwise the pointer pushed is `elems + (i * elt_size mod 2^32)`, which is
the `elems + i * elt_size` of the claim when `i * elt_size < 2^32` and another address
when it is not. -/
theorem C11_aadds_bounds (nft : NativeTable) (bc0 : bc0_file) (s : State) (i : Int) (A : Nat)
    (rest : List c0_value) (cbs sbs ebs : List Nat)
    (hop : s.P[s.pc]? = some 0x63)
    (hS : s.S = c0_value.int i :: c0_value.ptr A :: rest)
    (hA : A ≠ 0 → loadBytes s.M A 4 = .ok cbs ∧ loadBytes s.M (A + 4) 4 = .ok sbs ∧
      loadBytes s.M (A + 8) 8 = .ok ebs) :
    ((∃ msg, step nft bc0 s = .error (.memory_error msg)) ↔
      (A = 0 ∨ i < 0 ∨ i ≥ toI32 (leValue cbs))) ∧
    ((A = 0 ∨ i < 0 ∨ i ≥ toI32 (leValue cbs)) → ∀ s1, step nft bc0 s ≠ .ok s1) ∧
    (A ≠ 0 → 0 ≤ i → i < toI32 (leValue cbs) →
      step nft bc0 s = .ok { s with pc := pcInc s.pc,
                                    S := c0_value.ptr
                                          (leValue ebs + i.toNat * leValue sbs % 4294967296)
                                          :: rest }) ∧
    (A ≠ 0 → 0 ≤ i → i < toI32 (leValue cbs) → i.toNat * leValue sbs < 4294967296 →
      step nft bc0 s = .ok { s with pc := pcInc s.pc,
                                    S := c0_value.ptr (leValue ebs + i.toNat * leValue sbs)
                                          :: rest }) := by
  have f0 := fetch_of_get _ _ _ hop (by norm_num)
  have key : (∃ msg, step nft bc0 s = .error (.memory_error msg)) ↔
      (A = 0 ∨ i < 0 ∨ i ≥ toI32 (leValue cbs)) := by
    by_cases h0 : A = 0
    · simp [step, f0, decode, hS, h0, c0v_pop, val2ptr, val2int, bind, Except.bind, throw,
        throwThe, MonadExceptOf.throw]
    · obtain ⟨h1, h2, h3⟩ := hA h0
      by_cases hi : i < 0
      · simp [step, f0, decode, hS, h0, hi, c0v_pop, val2ptr, val2int, bind, Except.bind,
          throw, throwThe, MonadExceptOf.throw, pure, Except.pure]
      · by_cases hc : toI32 (leValue cbs) ≤ i
        · simp [step, f0, decode, hS, h0, hi, hc, h1, c0v_pop, val2ptr, val2int, bind,
            Except.bind, throw, throwThe, MonadExceptOf.throw, pure, Except.pure]
        · simp [step, f0, decode, hS, h0, hi, hc, h1, h2, h3, c0v_pop, val2ptr, val2int,
            bind, Except.bind, throw, throwThe, MonadExceptOf.throw, pure, Except.pure]
  have gen : A ≠ 0 → 0 ≤ i → i < toI32 (leValue cbs) →
      step nft bc0 s = .ok { s with pc := pcInc s.pc,
                                    S := c0_value.ptr
                                          (leValue ebs + i.toNat * leValue sbs % 4294967296)
                                          :: rest } := by
    intro h0 hi hc
    obtain ⟨h1, h2, h3⟩ := hA h0
    have hi' : ¬ i < 0 := by omega
    have hc' : ¬ toI32 (leValue cbs) ≤ i := by omega
    have hrange := toI32_isInt32 (leValue cbs)
    unfold isInt32 at hrange
    have hu : toU32 i = i.toNat := by
      have := toU32_cast i
      omega
    have hoff : leValue sbs * i.toNat % 4294967296 = i.toNat * leValue sbs % 4294967296 := by
      rw [Nat.mul_comm]
    simp [step, f0, decode, hS, h0, hi', hc', h1, h2, h3, hu, hoff, c0v_pop, val2ptr, val2int,
      c0v_push, ptr2val, bind, Except.bind, throw, throwThe, MonadExceptOf.throw, pure,
      Except.pure]
  refine ⟨key, ?_, gen, ?_⟩
  · intro h s1 hs
    obtain ⟨msg, hm⟩ := key.mpr h
    rw [hm] at hs
    cases hs
  · intro h0 hi hc hprod
    rw [gen h0 hi hc, Nat.mod_eq_of_lt hprod]

/-- C11 on `bigArrayProgram` and on `arrayHeap`: the program makes an array of
`count = 2^29 + 1` elements of 8 bytes (`elems = 17`) and indexes it at `2^29`, which is
in bounds; AADDS pushes the pointer `17`, the address of element 0, and not
`17 + 2^29 * 8 = 4294967313`.  On the array of `arrayHeap` (`count = 3`,
`elt_size = 4`, `elems = 17`) index 2 pushes `25 = 17 + 2 * 4` and index 5 raises a
memory error. -/
theorem C11_aadds_bounds_witness :
    (536870912 : Int) < toI32 (leValue [0x01, 0x00, 0x00, 0x20]) ∧
    steps noNatives bigArrayProgram 4 (bigArrayState 0 [] [])
      = .ok (bigArrayState 10 [c0_value.ptr 17]
              (bigArrayHeader ++ List.replicate 4294967304 0)) ∧
    (17 : Nat) ≠ 17 + 536870912 * 8 ∧
    step noNatives emptyProgram
        { stateAt 0x63 [c0_value.int 2, c0_value.ptr 1] with M := arrayHeap }
      = .ok { stateAt 0x63 [c0_value.ptr 25] with pc := 1, M := arrayHeap } ∧
    ∃ msg, step noNatives emptyProgram
        { stateAt 0x63 [c0_value.int 5, c0_value.ptr 1] with M := arrayHeap }
      = .error (.memory_error msg) :=
  ⟨by decide,
   steps_snoc noNatives bigArrayProgram 3 _ _ _ (bigArray_reachable noNatives).2
    ((C11_aadds_bounds noNatives bigArrayProgram
      (bigArrayState 9 [c0_value.int 536870912, c0_value.ptr 1]
        (bigArrayHeader ++ List.replicate 4294967304 0))
      536870912 1 [] [0x01, 0x00, 0x00, 0x20] [8, 0, 0, 0] [17, 0, 0, 0, 0, 0, 0, 0] rfl rfl
      (fun _ => bigArray_header_loads _)).2.2.1
      (by decide) (by decide) (by decide)),
   by decide,
   (C11_aadds_bounds noNatives emptyProgram
      { stateAt 0x63 [c0_value.int 2, c0_value.ptr 1] with M := arrayHeap } 2 1 []
      [3, 0, 0, 0] [4, 0, 0, 0] [17, 0, 0, 0, 0, 0, 0, 0] rfl rfl
      (fun _ => ⟨rfl, rfl, rfl⟩)).2.2.2 (by decide) (by decide) (by decide) (by decide),
   (C11_aadds_bounds noNatives emptyProgram
      { stateAt 0x63 [c0_value.int 5, c0_value.ptr 1] with M := arrayHeap } 5 1 []
      [3, 0, 0, 0] [4, 0, 0, 0] [17, 0, 0, 0, 0, 0, 0, 0] rfl rfl
      (fun _ => ⟨rfl, rfl, rfl⟩)).1.mpr (Or.inr (Or.inr (by decide)))⟩

/-- The heap `arrayHeap` is what `BIPUSH 3; NEWARRAY 4` builds, and NEWARRAY at position 2
leaves `pc = 5`. -/
theorem newarray_layout :
    steps noNatives paddedArrayProgram 2
        { S := [], P := [0x10, 0x03, 0xBC, 0x04, 0x00, 0x10, 0x05, 0x63], pc := 0, V := [],
          callStack := [], M := [] }
      = .ok { S := [c0_value.ptr 1], P := [0x10, 0x03, 0xBC, 0x04, 0x00, 0x10, 0x05, 0x63],
              pc := 5, V := [], callStack := [], M := arrayHeap } := by
  decide

/-! ## End-to-end: factorial -/

set_option maxRecDepth 1000000 in
/-- C16: the factorial program with argument 5 yields 120; for every `n ≤ 12` passed by
function 0 execution ends normally with result `n!`, after `8 + 11 * n` iterations. -/
theorem C16_factorial (nft : NativeTable) :
    (∀ fuel, execute nft (factProgram 5) (63 + fuel) = some (.returned 120)) ∧
    (∀ n, n ≤ 12 → ∀ fuel,
      execute nft (factProgram n) (8 + 11 * n + fuel) = some (.returned (n.factorial : Int))) := by
  constructor
  · intro fuel
    exact execute_add nft (factProgram 5) fuel 63 (.returned 120) rfl
  · intro n hn fuel
    apply execute_add
    interval_cases n <;> rfl

set_option maxRecDepth 1000000 in
/-- C16 at `n = 12`: the program yields `12! = 479001600` after 140 iterations. -/
theorem C16_factorial_witness :
    execute noNatives (factProgram 12) 140 = some (.returned 479001600) :=
  (C16_factorial noNatives).2 12 (by decide) 0

/-! ## Program counter -/

theorem fetch_ok_lt (P : List Nat) (p b : Nat) (h : fetch P p = .ok b) : p < P.length := by
  unfold fetch at h
  split at h
  · rename_i x hx
    exact get_lt_length P p x hx
  · cases h

theorem pcInc_fetch (P : List Nat) (p b : Nat) (hlen : P.length < 18446744073709551616)
    (h : fetch P p = .ok b) : pcInc p = p + 1 := by
  have := fetch_ok_lt P p b h
  exact pcInc_of_lt p (by omega)

/-- C17, on the code: a step that raises no error at an opcode which is not a control-flow
opcode advances `pc` by 1 plus the number of operand bytes the specification gives the
opcode, except at NEWARRAY (one operand byte), where the step advances `pc` by 3 and
not by 2. -/
theorem C17_pc_advance (nft : NativeTable) (bc0 : bc0_file) (s s1 : State) (op : Nat)
    (X : Opcode) (hlen : s.P.length < 18446744073709551616)
    (hf : fetch s.P s.pc = .ok op) (hd : decode op = some X)
    (hstep : step nft bc0 s = .ok s1) :
    (∀ k, specOperandBytes X = some k → X ≠ .NEWARRAY → s1.pc = s.pc + 1 + k) ∧
    (X = .NEWARRAY → s.pc + 3 < 18446744073709551616 → s1.pc = s.pc + 3) := by
  have e1 := pcInc_fetch _ _ _ hlen hf
  unfold step at hstep
  simp only [bind, Except.bind, hf] at hstep
  split at hstep
  all_goals (rename_i hdec; rw [hd] at hdec; cases hdec)
  all_goals (simp only [pure, Except.pure, throw, throwThe, MonadExceptOf.throw] at hstep)
  all_goals (repeat' (first | (cases hstep; done) | split at hstep))
  all_goals (first | (cases hstep; simp [specOperandBytes, e1]; done) | skip)
  all_goals (first
    | (have e2 : pcInc (s.pc + 1) = s.pc + 2 :=
        pcInc_fetch s.P _ _ hlen (by rw [← e1]; assumption)
       cases hstep
       simp [specOperandBytes, e1, e2]
       done)
    | (have e2 : pcInc (s.pc + 1) = s.pc + 2 :=
        pcInc_fetch s.P _ _ hlen (by rw [← e1]; assumption)
       have e3 : pcInc (s.pc + 2) = s.pc + 3 :=
        pcInc_fetch s.P _ _ hlen (by rw [← e2, ← e1]; assumption)
       cases hstep
       simp [specOperandBytes, e1, e2, e3])
    | skip)
  cases hstep
  refine ⟨fun k _ h => absurd rfl h, fun _ h3 => ?_⟩
  show (pcInc s.pc + 2) % SIZE_MOD = s.pc + 3
  rw [e1]
  unfold SIZE_MOD
  omega

/-- C17 at the NEWARRAY of `BIPUSH 3; NEWARRAY 4; BIPUSH 5; AADDS`: the step from position 2
goes to position 5, the operand byte of the BIPUSH at position 4. -/
theorem C17_pc_advance_witness :
    ∃ s1, step noNatives emptyProgram newarrayState = .ok s1 ∧ s1.pc = 2 + 3 ∧
      newarrayState.P[2 + 2]? = some 0x10 ∧ specOperandBytes .NEWARRAY = some 1 := by
  have h : step noNatives emptyProgram newarrayState
      = .ok { newarrayState with S := [c0_value.ptr 1], pc := 5, M := arrayHeap } := by
    decide
  exact ⟨_, h, (C17_pc_advance noNatives emptyProgram newarrayState _ 0xBC .NEWARRAY
    (by decide) rfl rfl h).2 rfl (by decide), rfl, rfl⟩

/-! ## Call-stack discipline -/

/-- Effect of one step on the call stack, by opcode. -/
theorem step_frames (nft : NativeTable) (bc0 : bc0_file) (t t1 : State) (op : Nat)
    (hf : fetch t.P t.pc = .ok op) (h : step nft bc0 t = .ok t1) :
    (decode op ≠ some .INVOKESTATIC → decode op ≠ some .RETURN →
      t1.callStack = t.callStack) ∧
    (decode op = some .INVOKESTATIC →
      ∃ fr, t1.callStack = fr :: t.callStack ∧ fr.P = t.P ∧ fr.V = t.V) ∧
    (decode op = some .RETURN →
      ∃ fr, t.callStack = fr :: t1.callStack ∧ t1.pc = fr.pc ∧ t1.P = fr.P ∧ t1.V = fr.V) := by
  unfold step at h
  simp only [bind, Except.bind, hf] at h
  split at h
  all_goals (rename_i hdec)
  all_goals (simp only [pure, Except.pure, throw, throwThe, MonadExceptOf.throw] at h)
  all_goals (repeat' (first | (cases h; done) | split at h))
  all_goals (first | (cases h; simp [hdec]; done) | skip)
  rename_i tmp cs hcs
  cases h
  refine ⟨fun _ h2 => absurd hdec h2, fun h2 => ?_, fun _ => ⟨tmp, hcs, rfl, rfl, rfl⟩⟩
  rw [hdec] at h2
  cases h2

theorem step_ok_fetch (nft : NativeTable) (bc0 : bc0_file) (t t1 : State)
    (h : step nft bc0 t = .ok t1) : ∃ op, fetch t.P t.pc = .ok op := by
  cases hf : fetch t.P t.pc with
  | ok op => exact ⟨op, rfl⟩
  | error e =>
    unfold step at h
    simp only [bind, Except.bind, hf] at h
    cases h

/-- C20: a step at an opcode other than INVOKESTATIC and RETURN leaves the call stack as
it is (so VSTORE never touches a suspended frame); INVOKESTATIC pushes exactly one
frame, holding the caller's code and locals; RETURN on a non-empty call stack pops
exactly the top frame and makes its saved `pc`, code and locals the active ones; and when
a run that starts with a call comes back to the depth of the caller (any number of nested
calls and returns in between), the caller's locals, code and call stack are those it had
at the call. -/
theorem C20_call_stack_discipline (nft : NativeTable) (bc0 : bc0_file) :
    (∀ (s s1 : State) (op : Nat), fetch s.P s.pc = .ok op → step nft bc0 s = .ok s1 →
      (decode op ≠ some .INVOKESTATIC → decode op ≠ some .RETURN →
        s1.callStack = s.callStack) ∧
      (decode op = some .VSTORE → s1.callStack = s.callStack) ∧
      (decode op = some .INVOKESTATIC →
        ∃ fr, s1.callStack = fr :: s.callStack ∧ fr.P = s.P ∧ fr.V = s.V) ∧
      (decode op = some .RETURN →
        ∃ fr, s.callStack = fr :: s1.callStack ∧ s1.pc = fr.pc ∧ s1.P = fr.P ∧
          s1.V = fr.V)) ∧
    (∀ (s : State) (fr : frame) (cs : List frame) (r : Int),
      s.P[s.pc]? = some 0xB0 → s.S = [c0_value.int r] → s.callStack = fr :: cs →
      step nft bc0 s = .ok { pc := fr.pc, P := fr.P, V := fr.V, S := c0_value.int r :: fr.S,
                             callStack := cs, M := s.M }) ∧
    (∀ (s s1 : State) (k : Nat) (t s2 : State),
      step nft bc0 s = .ok s1 → s1.callStack.length = s.callStack.length + 1 →
      steps nft bc0 k s1 = .ok t →
      (∀ j, j ≤ k → ∀ u, steps nft bc0 j s1 = .ok u →
        s.callStack.length < u.callStack.length) →
      step nft bc0 t = .ok s2 → s2.callStack.length = s.callStack.length →
      s2.V = s.V ∧ s2.P = s.P ∧ s2.callStack = s.callStack) := by
  refine ⟨?_, ?_, ?_⟩
  · intro s s1 op hf hstep
    obtain ⟨h1, h2, h3⟩ := step_frames nft bc0 s s1 op hf hstep
    refine ⟨h1, fun hv => h1 ?_ ?_, h2, h3⟩
    · rw [hv]
      decide
    · rw [hv]
      decide
  · intro s fr cs r hop hS hcs
    have f0 := fetch_of_get _ _ _ hop (by norm_num)
    simp [step, f0, decode, hS, hcs, c0v_pop, val2int, c0v_push, int2val, bind, Except.bind,
      pure, Except.pure, throw, throwThe, MonadExceptOf.throw]
  · intro s s1 k t s2 hcall hgrow hrun hin hret hback
    obtain ⟨op, hf⟩ := step_ok_fetch nft bc0 s s1 hcall
    obtain ⟨h1, h2, h3⟩ := step_frames nft bc0 s s1 op hf hcall
    have hpush : ∃ fr, s1.callStack = fr :: s.callStack ∧ fr.P = s.P ∧ fr.V = s.V := by
      by_cases hi : decode op = some .INVOKESTATIC
      · exact h2 hi
      · by_cases hr : decode op = some .RETURN
        · obtain ⟨fr, hfr, _⟩ := h3 hr
          rw [hfr] at hgrow
          simp at hgrow
          omega
        · have := h1 hi hr
          rw [this] at hgrow
          omega
    obtain ⟨fr, hcs, hP, hV⟩ := hpush
    obtain ⟨xs, hxs⟩ := callStack_bottom nft bc0 s1 fr s.callStack k hcs hin k (le_refl k) t hrun
    rcases step_callStack nft bc0 t s2 hret with
      h | ⟨fr1, h⟩ | ⟨fr1, r, h, _, _, _, _, hP2, hV2⟩
    · rw [h, hxs] at hback
      simp at hback
      omega
    · rw [h, hxs] at hback
      simp at hback
      omega
    · rw [hxs] at h
      cases xs with
      | nil =>
        simp only [List.nil_append, List.cons.injEq] at h
        obtain ⟨hfr, hbase⟩ := h
        subst hfr
        exact ⟨hV2.trans hV, hP2.trans hP, hbase.symm⟩
      | cons x xs1 =>
        simp only [List.cons_append, List.cons.injEq] at h
        rw [← h.2] at hback
        simp at hback
        omega

/-- C20 on `callProgram`: the run from the call at position 2 to the return of the callee
brings back the caller's locals, code and call stack. -/
theorem C20_call_stack_discipline_witness :
    callerResumed.V = callState.V ∧ callerResumed.P = callState.P ∧
      callerResumed.callStack = callState.callStack :=
  (C20_call_stack_discipline noNatives callProgram).2.2 callState calleeEntry 1 calleeReturn
    callerResumed (by decide) (by decide) (by decide)
    (by
      intro j hj u hu
      have hj2 : j = 0 ∨ j = 1 := by omega
      rcases hj2 with rfl | rfl
      · cases hu
        decide
      · have e : steps noNatives callProgram 1 calleeEntry = .ok calleeReturn := by decide
        rw [e] at hu
        cases hu
        decide)
    (by decide) (by decide)

end C0VM
